import Mathlib

/-!
Verification model of the schema-driven binary codec implemented in
src/binary_format_handler.py (classes BinaryFormatHandler and ScopeResolver).

The Python code is shallowly embedded:
- byte strings are lists of naturals below 256;
- Python dicts are ordered association lists (insertion order preserved,
  updates in place), matching CPython semantics;
- Python exceptions are an explicit constructor PyRes.exn carrying a message;
- the mutable handler attributes (calculated_fields, field_offsets,
  field_sizes), which __init__ creates and no method ever resets, are
  threaded as an explicit HandlerState value;
- the Python expression strings that the handler passes to eval for the
  condition and length_field attributes are embedded as the PyExpr fragment
  actually occurring in schemas (integer literals, bare names, single-key
  subscripts, comparisons); a bare name resolves only against the locals
  mapping that the handler passes to eval, exactly as CPython does.

Model boundaries (none of them reachable from any theorem below): float32,
float64 and char packing, union fields, and text encodings other than utf-8
are represented by explicit model-boundary errors.
-/

set_option maxHeartbeats 1000000
set_option maxRecDepth 100000

namespace BinMaster

/-- Result of running a piece of Python code: a value, or a raised exception
carrying its message. -/
inductive PyRes (α : Type) where
  | ok (val : α)
  | exn (msg : String)
deriving DecidableEq, Repr

/-- A Python/JSON value as used for documents: None, bool, int, str, list and
dict (ordered association list, as CPython dicts preserve insertion order). -/
inductive Value where
  | vNull : Value
  | vBool (b : Bool) : Value
  | vInt (n : Int) : Value
  | vStr (s : String) : Value
  | vList (xs : List Value) : Value
  | vDict (m : List (String × Value)) : Value
deriving Repr

/-- Dictionary lookup (dict.get / the in operator). -/
def lookupKey : List (String × Value) → String → Option Value
  | [], _ => none
  | (k, v) :: rest, key => if k = key then some v else lookupKey rest key

/-- Dictionary update d[key] = v: overwrite in place keeping the original
position, append at the end when the key is new (CPython dict semantics). -/
def setKey : List (String × Value) → String → Value → List (String × Value)
  | [], key, v => [(key, v)]
  | (k, w) :: rest, key, v =>
    if k = key then (k, v) :: rest else (k, w) :: setKey rest key v

/-- Python truthiness of a value. -/
def pyTruthy : Value → Bool
  | .vNull => false
  | .vBool b => b
  | .vInt n => decide (n ≠ 0)
  | .vStr s => decide (s ≠ "")
  | .vList xs => !xs.isEmpty
  | .vDict m => !m.isEmpty

/-- Numeric view used by comparisons and == (Python bools are ints). -/
def asNum : Value → Option Int
  | .vInt n => some n
  | .vBool b => some (if b then 1 else 0)
  | _ => none

mutual

/-- Python == on values: numbers compare across bool/int, lists elementwise,
dicts by key set and per-key value equality (order-insensitive). -/
def pyEqV : Value → Value → Bool
  | .vNull, .vNull => true
  | .vBool a, .vBool b => a == b
  | .vBool a, .vInt b => (if a then (1 : Int) else 0) == b
  | .vInt a, .vBool b => a == (if b then (1 : Int) else 0)
  | .vInt a, .vInt b => a == b
  | .vStr a, .vStr b => a == b
  | .vList a, .vList b => pyEqL a b
  | .vDict a, .vDict b => a.length == b.length && pyEqD a b
  | _, _ => false

/-- Elementwise Python == on lists. -/
def pyEqL : List Value → List Value → Bool
  | [], [] => true
  | x :: xs, y :: ys => pyEqV x y && pyEqL xs ys
  | _, _ => false

/-- Every pair of the first dict has a Python-equal value in the second. -/
def pyEqD : List (String × Value) → List (String × Value) → Bool
  | [], _ => true
  | (k, v) :: rest, other =>
    (match lookupKey other k with
     | some w => pyEqV v w
     | none => false) && pyEqD rest other

end

/-- Embedding of the Python expression strings that the handler passes to
eval(expr, empty-globals, locals) for condition and length_field attributes.
A bare name resolves only against the locals dict the handler supplies
(context, data); any other bare name raises NameError, as in CPython. -/
inductive PyExpr where
  | intLit (n : Int)
  | name (s : String)
  | subscript (e : PyExpr) (key : String)
  | gt (a b : PyExpr)
  | lt (a b : PyExpr)
  | eqE (a b : PyExpr)
deriving DecidableEq, Repr

/-- Evaluate an embedded expression the way eval does with the given locals. -/
def evalPy (locals : List (String × Value)) : PyExpr → PyRes Value
  | .intLit n => .ok (.vInt n)
  | .name s =>
    match lookupKey locals s with
    | some v => .ok v
    | none => .exn ("NameError: name " ++ s ++ " is not defined")
  | .subscript e k =>
    match evalPy locals e with
    | .exn m => .exn m
    | .ok (.vDict m) =>
      match lookupKey m k with
      | some v => .ok v
      | none => .exn ("KeyError: " ++ k)
    | .ok _ => .exn "TypeError: object is not subscriptable"
  | .gt a b =>
    match evalPy locals a, evalPy locals b with
    | .exn m, _ => .exn m
    | .ok _, .exn m => .exn m
    | .ok x, .ok y =>
      match asNum x, asNum y with
      | some i, some j => .ok (.vBool (decide (i > j)))
      | _, _ => .exn "TypeError: unsupported comparison"
  | .lt a b =>
    match evalPy locals a, evalPy locals b with
    | .exn m, _ => .exn m
    | .ok _, .exn m => .exn m
    | .ok x, .ok y =>
      match asNum x, asNum y with
      | some i, some j => .ok (.vBool (decide (i < j)))
      | _, _ => .exn "TypeError: unsupported comparison"
  | .eqE a b =>
    match evalPy locals a, evalPy locals b with
    | .exn m, _ => .exn m
    | .ok _, .exn m => .exn m
    | .ok x, .ok y => .ok (.vBool (pyEqV x y))

/-- The FieldDefinition dataclass of binary_format_handler.py, after
_parse_field_definition has filled the defaults: function_scope defaults to
the string all_previous, encoding to utf-8, function_parameters to the empty
dict.  The union attributes (discriminator_field, union_variants) are not
carried: union fields are a model boundary. -/
inductive FieldDefinition where
  | mk (name : String) (type : String) (size : Option Int) (encoding : String)
      (length_field : Option PyExpr) (fields : List FieldDefinition)
      (condition : Option PyExpr) (function : Option String)
      (function_scope : String)
      (function_scope_start : Option String) (function_scope_end : Option String)
      (function_parameters : List (String × Value))
deriving Repr

def FieldDefinition.name : FieldDefinition → String
  | .mk n _ _ _ _ _ _ _ _ _ _ _ => n

def FieldDefinition.type : FieldDefinition → String
  | .mk _ t _ _ _ _ _ _ _ _ _ _ => t

def FieldDefinition.size : FieldDefinition → Option Int
  | .mk _ _ s _ _ _ _ _ _ _ _ _ => s

def FieldDefinition.encoding : FieldDefinition → String
  | .mk _ _ _ e _ _ _ _ _ _ _ _ => e

def FieldDefinition.length_field : FieldDefinition → Option PyExpr
  | .mk _ _ _ _ lf _ _ _ _ _ _ _ => lf

def FieldDefinition.fields : FieldDefinition → List FieldDefinition
  | .mk _ _ _ _ _ fs _ _ _ _ _ _ => fs

def FieldDefinition.condition : FieldDefinition → Option PyExpr
  | .mk _ _ _ _ _ _ c _ _ _ _ _ => c

def FieldDefinition.function : FieldDefinition → Option String
  | .mk _ _ _ _ _ _ _ fn _ _ _ _ => fn

def FieldDefinition.function_scope : FieldDefinition → String
  | .mk _ _ _ _ _ _ _ _ fs _ _ _ => fs

def FieldDefinition.function_scope_start : FieldDefinition → Option String
  | .mk _ _ _ _ _ _ _ _ _ a _ _ => a

def FieldDefinition.function_scope_end : FieldDefinition → Option String
  | .mk _ _ _ _ _ _ _ _ _ _ b _ => b

def FieldDefinition.function_parameters : FieldDefinition → List (String × Value)
  | .mk _ _ _ _ _ _ _ _ _ _ _ p => p

/-- Byte order of the handler, from the endianness key of the schema. -/
inductive Endian where
  | little
  | big
deriving DecidableEq, Repr

/-- Width and signedness behind a struct format character. -/
inductive PrimKind where
  | intK (width : Nat) (signed : Bool)
  | floatK (width : Nat)
  | charK
deriving DecidableEq, Repr

/-- TYPE_MAP of BinaryFormatHandler: type name to struct format semantics. -/
def typeMap : String → Option PrimKind
  | "int8" => some (.intK 1 true)
  | "uint8" => some (.intK 1 false)
  | "int16" => some (.intK 2 true)
  | "uint16" => some (.intK 2 false)
  | "int32" => some (.intK 4 true)
  | "uint32" => some (.intK 4 false)
  | "int64" => some (.intK 8 true)
  | "uint64" => some (.intK 8 false)
  | "float32" => some (.floatK 4)
  | "float64" => some (.floatK 8)
  | "char" => some .charK
  | _ => none

/-- struct.calcsize of the mapped format character. -/
def PrimKind.width : PrimKind → Nat
  | .intK w _ => w
  | .floatK w => w
  | .charK => 1

/-- Little-endian byte decomposition of a natural number into w bytes. -/
def natLE : Nat → Nat → List Nat
  | 0, _ => []
  | w + 1, v => v % 256 :: natLE w (v / 256)

/-- Recompose a little-endian byte list into a natural number. -/
def natFromLE : List Nat → Nat
  | [] => 0
  | b :: rest => b + 256 * natFromLE rest

/-- Apply the configured byte order to a little-endian byte list. -/
def orderBytes (e : Endian) (bs : List Nat) : List Nat :=
  match e with
  | .little => bs
  | .big => bs.reverse

/-- Value accepted by struct.pack for an integer format (bools are ints). -/
def asPackInt : Value → Option Int
  | .vInt n => some n
  | .vBool b => some (if b then 1 else 0)
  | _ => none

/-- Model of struct.pack(endian-char ++ format, v) for a single value:
integer formats range-check the argument and emit the two-complement bytes
in the configured order; float formats are modeled only for the integer 0
(the phase-1 placeholder), any other argument being a model boundary. -/
def packPrim (e : Endian) (k : PrimKind) (v : Value) : PyRes (List Nat) :=
  match k with
  | .intK w signed =>
    match asPackInt v with
    | none => .exn "struct.error: required argument is not an integer"
    | some n =>
      if signed then
        if -(2 ^ (8 * w - 1) : Int) ≤ n ∧ n < (2 ^ (8 * w - 1) : Int) then
          .ok (orderBytes e (natLE w ((n % (2 ^ (8 * w) : Int)).toNat)))
        else .exn "struct.error: argument out of range"
      else
        if 0 ≤ n ∧ n < (2 ^ (8 * w) : Int) then
          .ok (orderBytes e (natLE w n.toNat))
        else .exn "struct.error: argument out of range"
  | .floatK w =>
    match v with
    | .vInt 0 => .ok (List.replicate w 0)
    | _ => .exn "model boundary: float packing not modeled"
  | .charK => .exn "model boundary: char packing not modeled"

/-- Model of struct.unpack(endian-char ++ format, bs) for a byte list of the
format width: integer formats recompose the value, sign-extending for signed
formats; float and char formats are a model boundary. -/
def unpackPrim (e : Endian) (k : PrimKind) (bs : List Nat) : PyRes Value :=
  match k with
  | .intK w signed =>
    let n := natFromLE (orderBytes e bs)
    if signed then
      .ok (.vInt (if n < 2 ^ (8 * w - 1) then (n : Int) else (n : Int) - 2 ^ (8 * w)))
    else .ok (.vInt n)
  | .floatK _ => .exn "model boundary: float unpacking not modeled"
  | .charK => .exn "model boundary: char unpacking not modeled"

/-- struct.pack(endian-char ++ I, L) for a length L given as a Nat (the
call the string serializer makes on len(encoded_value)): the same range
check and bytes as packPrim on the cast argument, phrased over Nat.
The theorem packPrim_u32 below proves the agreement with packPrim. -/
def packU32 (e : Endian) (L : Nat) : PyRes (List Nat) :=
  if L < 2 ^ 32 then .ok (orderBytes e (natLE 4 L))
  else .exn "struct.error: argument out of range"

/-- UTF-8 bytes of one code point (value of str.encode for each character). -/
def utf8EncodeChar (c : Nat) : List Nat :=
  if c < 0x80 then [c]
  else if c < 0x800 then [0xC0 + c / 64, 0x80 + c % 64]
  else if c < 0x10000 then [0xE0 + c / 4096, 0x80 + c / 64 % 64, 0x80 + c % 64]
  else [0xF0 + c / 262144, 0x80 + c / 4096 % 64, 0x80 + c / 64 % 64, 0x80 + c % 64]

/-- UTF-8 encoding of a Python string (str.encode with encoding utf-8). -/
def utf8Encode (s : String) : List Nat :=
  s.data.flatMap (fun c => utf8EncodeChar c.toNat)

/-- The replacement character U+FFFD. -/
def fffd : Char := Char.ofNat 0xFFFD

/-- Acceptance range for the first continuation byte after lead byte b,
following the table of valid UTF-8 sequences (RFC 3629): E0 and F0 exclude
overlong forms, ED excludes surrogates, F4 caps at U+10FFFF. -/
def utf8Cont1Lo (b : Nat) : Nat :=
  if b = 0xE0 then 0xA0 else if b = 0xF0 then 0x90 else 0x80

def utf8Cont1Hi (b : Nat) : Nat :=
  if b = 0xED then 0x9F else if b = 0xF4 then 0x8F else 0xBF

/-- Plain continuation byte test (positions after the first continuation). -/
def isCont (b : Nat) : Bool := 0x80 ≤ b && b ≤ 0xBF

/-- Decoder for bytes.decode(utf-8, errors=replace): well-formed sequences
become their code point, every maximal subpart of an ill-formed sequence
becomes one U+FFFD, and decoding never fails (CPython replace semantics).
The fuel argument bounds the number of steps; every step consumes at least
one byte, so the byte count always suffices. -/
def utf8DecodeF : Nat → List Nat → List Char
  | _, [] => []
  | 0, _ :: _ => []
  | fuel + 1, b :: rest =>
    if b < 0x80 then Char.ofNat b :: utf8DecodeF fuel rest
    else if 0xC2 ≤ b ∧ b ≤ 0xDF then
      match rest with
      | [] => [fffd]
      | c1 :: r2 =>
        if isCont c1 then
          Char.ofNat ((b - 0xC0) * 64 + (c1 - 0x80)) :: utf8DecodeF fuel r2
        else fffd :: utf8DecodeF fuel (c1 :: r2)
    else if 0xE0 ≤ b ∧ b ≤ 0xEF then
      match rest with
      | [] => [fffd]
      | c1 :: r2 =>
        if utf8Cont1Lo b ≤ c1 ∧ c1 ≤ utf8Cont1Hi b then
          match r2 with
          | [] => [fffd]
          | c2 :: r3 =>
            if isCont c2 then
              Char.ofNat ((b - 0xE0) * 4096 + (c1 - 0x80) * 64 + (c2 - 0x80)) ::
                utf8DecodeF fuel r3
            else fffd :: utf8DecodeF fuel (c2 :: r3)
        else fffd :: utf8DecodeF fuel (c1 :: r2)
    else if 0xF0 ≤ b ∧ b ≤ 0xF4 then
      match rest with
      | [] => [fffd]
      | c1 :: r2 =>
        if utf8Cont1Lo b ≤ c1 ∧ c1 ≤ utf8Cont1Hi b then
          match r2 with
          | [] => [fffd]
          | c2 :: r3 =>
            if isCont c2 then
              match r3 with
              | [] => [fffd]
              | c3 :: r4 =>
                if isCont c3 then
                  Char.ofNat ((b - 0xF0) * 262144 + (c1 - 0x80) * 4096 +
                      (c2 - 0x80) * 64 + (c3 - 0x80)) :: utf8DecodeF fuel r4
                else fffd :: utf8DecodeF fuel (c3 :: r4)
            else fffd :: utf8DecodeF fuel (c2 :: r3)
        else fffd :: utf8DecodeF fuel (c1 :: r2)
    else fffd :: utf8DecodeF fuel rest

def utf8DecodeReplaceChars (bs : List Nat) : List Char :=
  utf8DecodeF bs.length bs

/-- Model of value.encode(encoding): only utf-8 is modeled; other encodings
are a model boundary (no claim exercises them). -/
def pyEncode (encoding : String) (s : String) : PyRes (List Nat) :=
  if encoding = "utf-8" then .ok (utf8Encode s)
  else .exn "model boundary: only utf-8 text encoding is modeled"

/-- Model of data.decode(encoding, errors=replace): total for utf-8. -/
def pyDecodeReplace (encoding : String) (bs : List Nat) : PyRes String :=
  if encoding = "utf-8" then .ok ⟨utf8DecodeReplaceChars bs⟩
  else .exn "model boundary: only utf-8 text encoding is modeled"

/-- Python slice bs[:n] with a possibly negative bound. -/
def pyTake (bs : List Nat) (n : Int) : List Nat :=
  if n < 0 then bs.take (((bs.length : Int) + n).toNat) else bs.take n.toNat

/-- Python slice l[a:b] (step 1) with negative-index and clamping rules. -/
def pySlice (l : List Nat) (a b : Int) : List Nat :=
  let n : Int := l.length
  let lo := if a < 0 then max 0 (n + a) else min a n
  let hi := if b < 0 then max 0 (n + b) else min b n
  (l.take hi.toNat).drop lo.toNat

/-- bytes.ljust(n, NUL): right-pad with zero bytes up to length n. -/
def ljustZero (bs : List Nat) (n : Nat) : List Nat :=
  bs ++ List.replicate (n - bs.length) 0

/-- bytes.rstrip(NUL): drop trailing zero bytes. -/
def rstripZeros (bs : List Nat) : List Nat :=
  (bs.reverse.dropWhile (fun b => b == 0)).reverse

/-- Decimal digits of a positive natural, least significant first; the first
argument is fuel bounding the digit count (n itself always suffices). -/
def natDigitsRevF : Nat → Nat → List Char
  | 0, _ => []
  | fuel + 1, n =>
    if n = 0 then [] else Char.ofNat (48 + n % 10) :: natDigitsRevF fuel (n / 10)

def natDigitsRev (n : Nat) : List Char := natDigitsRevF n n

/-- Decimal representation of a natural (Python str of a nonnegative int). -/
def natRepr (n : Nat) : String :=
  if n = 0 then "0" else ⟨(natDigitsRev n).reverse⟩

def isDigitChar (c : Char) : Bool := 48 ≤ c.toNat && c.toNat ≤ 57

def digitsValAux (acc : Nat) : List Char → Nat
  | [] => acc
  | c :: r => digitsValAux (acc * 10 + (c.toNat - 48)) r

def isPySpace (c : Char) : Bool :=
  c == ' ' || c == '\t' || c == '\n' || c == '\r' || c == '\x0b' || c == '\x0c'

/-- str.strip() on the character list. -/
def stripChars (cs : List Char) : List Char :=
  ((cs.dropWhile isPySpace).reverse.dropWhile isPySpace).reverse

/-- Model of int(s): optional surrounding whitespace, optional sign, digits;
none models the ValueError raised on anything else. -/
def pyIntChars (cs : List Char) : Option Int :=
  let cs := stripChars cs
  match cs with
  | '-' :: rest =>
    if rest ≠ [] ∧ rest.all isDigitChar then some (-(digitsValAux 0 rest : Int)) else none
  | '+' :: rest =>
    if rest ≠ [] ∧ rest.all isDigitChar then some (digitsValAux 0 rest) else none
  | _ =>
    if cs ≠ [] ∧ cs.all isDigitChar then some (digitsValAux 0 cs) else none

/-- path.split on the dot character, keeping empty parts (str.split). -/
def splitOnDotAux (cur : List Char) : List Char → List (List Char)
  | [] => [cur.reverse]
  | c :: rest =>
    if c = '.' then cur.reverse :: splitOnDotAux [] rest
    else splitOnDotAux (c :: cur) rest

def splitParts (s : String) : List String :=
  (splitOnDotAux [] s.data).map (fun cs => ⟨cs⟩)

def pyStrip (s : String) : String := ⟨stripChars s.data⟩

/-- Split a path part at its first left bracket: part before, rest after. -/
def splitAtLBracket : List Char → Option (List Char × List Char)
  | [] => none
  | c :: rest =>
    if c = '[' then some ([], rest)
    else
      match splitAtLBracket rest with
      | some (a, b) => some (c :: a, b)
      | none => none

/-- Recognize a part of the form name,[,digits,]: the test the source makes
with the in operator and endswith, returning the name and the index text
(everything between the first left bracket and the final right bracket). -/
def parseBracketPart (cs : List Char) : Option (String × List Char) :=
  if cs.getLast? = some ']' then
    match splitAtLBracket cs with
    | some (nm, after) => some (⟨nm⟩, after.dropLast)
    | none => none
  else none

/-- Python list read with negative-index semantics; the source catches
IndexError and yields None. -/
def listGetPy (xs : List Value) (i : Int) : Value :=
  let j : Int := if i < 0 then (xs.length : Int) + i else i
  if 0 ≤ j ∧ j < xs.length then xs.getD j.toNat .vNull
  else .vNull

/-- Python list element assignment with negative-index semantics; an index
still out of range raises IndexError (modeled as exn). -/
def listSetPy (xs : List Value) (i : Int) (v : Value) : PyRes (List Value) :=
  let j : Int := if i < 0 then (xs.length : Int) + i else i
  if 0 ≤ j ∧ j < xs.length then .ok (xs.set j.toNat v)
  else .exn "IndexError: list assignment index out of range"

/-- The loop body of _get_nested_value over already split-and-stripped parts. -/
def getNestedParts : Value → List String → PyRes Value
  | v, [] => .ok v
  | v, part :: rest =>
    match parseBracketPart part.data with
    | some (fieldName, idxChars) =>
      match v with
      | .vDict m =>
        match lookupKey m fieldName with
        | some arrVal =>
          match arrVal with
          | .vList xs =>
            match pyIntChars idxChars with
            | some i => getNestedParts (listGetPy xs i) rest
            | none => .exn "ValueError: invalid literal for int"
          | _ => .ok .vNull
        | none => .ok .vNull
      | _ => .ok .vNull
    | none =>
      match v with
      | .vDict m =>
        match lookupKey m part with
        | some w => getNestedParts w rest
        | none => .ok .vNull
      | _ => .ok .vNull

/-- _get_nested_value(data, path): split on dots, strip each part, drop the
empty ones, then walk the document. -/
def get_nested_value (data : Value) (path : String) : PyRes Value :=
  getNestedParts data (((splitParts path).map pyStrip).filter (fun p => p ≠ ""))

/-- The loop body of _write_nested_value over already split parts: writes the
value at the path, materializing missing dicts, lists and None/dict padding
exactly as the source does. -/
def writeNestedParts : Value → List String → Value → PyRes Value
  | cur, [], _ => .ok cur
  | cur, part :: rest, v =>
    match parseBracketPart part.data with
    | some (fieldName, idxChars) =>
      match cur with
      | .vDict m =>
        let arr : List Value :=
          match lookupKey m fieldName with
          | some (.vList xs) => xs
          | _ => []
        match pyIntChars idxChars with
        | none => .exn "ValueError: invalid literal for int"
        | some i =>
          if rest.isEmpty then
            let padded := arr ++ List.replicate ((i + 1 - (arr.length : Int)).toNat) .vNull
            match listSetPy padded i v with
            | .ok arr2 => .ok (.vDict (setKey m fieldName (.vList arr2)))
            | .exn msg => .exn msg
          else
            let padded := arr ++ List.replicate ((i + 1 - (arr.length : Int)).toNat) (.vDict [])
            let elem := listGetPy padded i
            match writeNestedParts elem rest v with
            | .ok elem2 =>
              match listSetPy padded i elem2 with
              | .ok arr2 => .ok (.vDict (setKey m fieldName (.vList arr2)))
              | .exn msg => .exn msg
            | .exn msg => .exn msg
      | _ => .exn "TypeError: object does not support item assignment"
    | none =>
      match cur with
      | .vDict m =>
        if rest.isEmpty then .ok (.vDict (setKey m part v))
        else
          let sub : Value :=
            match lookupKey m part with
            | some (.vDict ms) => .vDict ms
            | _ => .vDict []
          match writeNestedParts sub rest v with
          | .ok sub2 => .ok (.vDict (setKey m part sub2))
          | .exn msg => .exn msg
      | _ => .exn "TypeError: object does not support item assignment"

/-- _write_nested_value(data, path, value): split on dots, drop empty parts,
then write along the path. -/
def write_nested_value (data : Value) (path : String) (v : Value) : PyRes Value :=
  writeNestedParts data ((splitParts path).filter (fun p => p ≠ "")) v

/-- Association-list read for the offset and size maps (dict.get). -/
def assocGet {α : Type} : List (String × α) → String → Option α
  | [], _ => none
  | (k, v) :: rest, key => if k = key then some v else assocGet rest key

/-- Association-list write for the offset and size maps (d[k] = v). -/
def assocSet {α : Type} : List (String × α) → String → α → List (String × α)
  | [], key, v => [(key, v)]
  | (k, w) :: rest, key, v =>
    if k = key then (k, v) :: rest else (k, w) :: assocSet rest key v

/-- Truthiness of an optional string (Python: None and the empty string are
falsy), used for the or-defaults and the not-checks on scope parameters. -/
def optTruthy : Option String → Bool
  | none => false
  | some s => s ≠ ""

/-- path.split on an arbitrary separator character, keeping empty parts. -/
def splitOnSep (sep : Char) : List Char → List Char → List (List Char)
  | cur, [] => [cur.reverse]
  | cur, c :: rest =>
    if c = sep then cur.reverse :: splitOnSep sep [] rest
    else splitOnSep sep (c :: cur) rest

/-- ScopeResolver.get_scope_data: map a symbolic scope onto a byte slice of
the phase-1 buffer, using the recorded field offsets and sizes. -/
def get_scope_data (field_offsets field_sizes : List (String × Nat))
    (data : List Nat) (scope_type : String)
    (scope_start scope_end : Option String) (current_offset : Nat) :
    PyRes (List Nat) :=
  if scope_type = "all_previous" then .ok (pySlice data 0 current_offset)
  else if scope_type = "entire_file" then .ok data
  else if scope_type = "from_start" then .ok (pySlice data 0 current_offset)
  else if scope_type = "field_range" then
    if !optTruthy scope_start || !optTruthy scope_end then
      .exn "field_range scope requires both scope_start and scope_end"
    else
      match assocGet field_offsets (scope_start.getD ""),
            assocGet field_offsets (scope_end.getD "") with
      | none, _ => .exn ("Start field not found: " ++ scope_start.getD "")
      | some _, none => .exn ("End field not found: " ++ scope_end.getD "")
      | some startOff, some endOff =>
        let endSize := (assocGet field_sizes (scope_end.getD "")).getD 0
        .ok (pySlice data startOff (endOff + endSize))
  else if scope_type = "from_field" then
    if !optTruthy scope_start then .exn "from_field scope requires scope_start"
    else
      match assocGet field_offsets (scope_start.getD "") with
      | none => .exn ("Start field not found: " ++ scope_start.getD "")
      | some startOff => .ok (pySlice data startOff current_offset)
  else if scope_type = "to_field" then
    if !optTruthy scope_end then .exn "to_field scope requires scope_end"
    else
      match assocGet field_offsets (scope_end.getD "") with
      | none => .exn ("End field not found: " ++ scope_end.getD "")
      | some endOff =>
        let endSize := (assocGet field_sizes (scope_end.getD "")).getD 0
        .ok (pySlice data 0 (endOff + endSize))
  else if scope_type = "after_field" then
    if !optTruthy scope_start then .exn "after_field scope requires scope_start"
    else
      match assocGet field_offsets (scope_start.getD "") with
      | none => .exn ("Start field not found: " ++ scope_start.getD "")
      | some startOff =>
        let startSize := (assocGet field_sizes (scope_start.getD "")).getD 0
        .ok (pySlice data (startOff + startSize) current_offset)
  else if scope_type = "last_n_bytes" then
    match (if optTruthy scope_start then pyIntChars (scope_start.getD "").data
           else some 100) with
    | none => .exn "ValueError: invalid literal for int"
    | some n =>
      let startPos : Int := max 0 ((current_offset : Int) - n)
      .ok (pySlice data startPos current_offset)
  else if scope_type = "specific_bytes" then
    if !optTruthy scope_start then
      .exn "specific_bytes scope requires range in scope_start (format start:end)"
    else
      let s := scope_start.getD ""
      if s.data.contains ':' then
        match (splitOnSep ':' [] s.data).map pyIntChars with
        | [some a, some b] => .ok (pySlice data a b)
        | _ => .exn ("Invalid byte range format: " ++ s)
      else
        match pyIntChars s.data with
        | some p => .ok (pySlice data p (p + 1))
        | none => .exn ("Invalid byte range format: " ++ s)
  else .exn ("Unknown scope type: " ++ scope_type)

/-- Degree of a CRC polynomial accepted by crcmod.mkCrcFun (8, 16, 24, 32 or
64 bits); none models the ValueError raised on any other degree. -/
def crcWidthOf (poly : Nat) : Option Nat :=
  if 2 ^ 8 ≤ poly ∧ poly < 2 ^ 9 then some 8
  else if 2 ^ 16 ≤ poly ∧ poly < 2 ^ 17 then some 16
  else if 2 ^ 24 ≤ poly ∧ poly < 2 ^ 25 then some 24
  else if 2 ^ 32 ≤ poly ∧ poly < 2 ^ 33 then some 32
  else if 2 ^ 64 ≤ poly ∧ poly < 2 ^ 65 then some 64
  else none

/-- Reverse the low width bits of a number. -/
def bitReverse : Nat → Nat → Nat
  | 0, _ => 0
  | w + 1, n => n % 2 * 2 ^ w + bitReverse w (n / 2)

/-- k single-bit steps of the reflected (LSB-first) CRC register update. -/
def crcBitsRev (revpoly : Nat) : Nat → Nat → Nat
  | 0, r => r
  | k + 1, r =>
    crcBitsRev revpoly k (if r % 2 = 1 then r / 2 ^^^ revpoly else r / 2)

/-- k single-bit steps of the MSB-first CRC register update. -/
def crcBitsFwd (width poly : Nat) : Nat → Nat → Nat
  | 0, r => r
  | k + 1, r =>
    crcBitsFwd width poly k
      (if r / 2 ^ (width - 1) % 2 = 1 then (r * 2 ^^^ poly) % 2 ^ width
       else r * 2 % 2 ^ width)

/-- Model of crcmod.mkCrcFun(poly, initCrc, rev, xorOut) applied to a byte
string.  crcmod documents initCrc as the xor of the true initial shift
register value with xorOut (so the standard CRC-32 is obtained with
initCrc = 0 and xorOut = 0xFFFFFFFF): the register starts at
initCrc XOR xorOut and the final register is xored with xorOut again. -/
def crcmodCrc (poly initCrc : Nat) (rev : Bool) (xorOut : Nat)
    (data : List Nat) : PyRes Nat :=
  match crcWidthOf poly with
  | none => .exn "ValueError: invalid CRC polynomial"
  | some width =>
    let mask := 2 ^ width - 1
    let reg0 := (initCrc ^^^ xorOut) &&& mask
    if rev then
      let revpoly := bitReverse width (poly &&& mask)
      .ok ((data.foldl (fun r b => crcBitsRev revpoly 8 (r ^^^ b)) reg0) ^^^ xorOut)
    else
      .ok ((data.foldl
        (fun r b => crcBitsFwd width (poly &&& mask) 8 (r ^^^ b * 2 ^ (width - 8)))
        reg0) ^^^ xorOut)

/-- The standard reflected CRC-32, stated from the words of the spec:
polynomial 0x104C11DB7, initial shift register value 0xFFFFFFFF, input and
output reflected, final xor 0xFFFFFFFF (the checksum zlib.crc32 computes,
with check value 0xCBF43926 on the bytes of 123456789). -/
def standardCrc32 (data : List Nat) : Nat :=
  let revpoly := bitReverse 32 0x04C11DB7
  (data.foldl (fun r b => crcBitsRev revpoly 8 (r ^^^ b)) 0xFFFFFFFF) ^^^ 0xFFFFFFFF

/-- Read an integer-valued function parameter with its default. -/
def paramInt (params : List (String × Value)) (key : String) (dflt : Int) :
    PyRes Int :=
  match lookupKey params key with
  | none => .ok dflt
  | some v =>
    match asPackInt v with
    | some n => .ok n
    | none => .exn "TypeError: an integer parameter is required"

/-- The mutable attributes of a BinaryFormatHandler instance that
serialization reads and writes: __init__ creates them empty and no method
ever clears them, so they persist across calls on the same instance. -/
structure HandlerState where
  calculated_fields : List FieldDefinition
  field_offsets : List (String × Nat)
  field_sizes : List (String × Nat)
deriving Repr

/-- The attribute values set up by __init__. -/
def initState : HandlerState := ⟨[], [], []⟩

/-- BinaryFormatHandler._calculate_function_value: compute the value of a
calculated field from its function name, parameters, scope bytes and the
document. -/
def calculate_function_value (st : HandlerState) (field : FieldDefinition)
    (data : List Nat) (context : Value) : PyRes Int :=
  let params := field.function_parameters
  match field.function with
  | some "crc32" =>
    match paramInt params "polynomial" 0x104C11DB7,
          paramInt params "initial_value" 0xFFFFFFFF,
          paramInt params "xor_out" 0xFFFFFFFF with
    | .ok poly, .ok init, .ok xo =>
      let rev := match lookupKey params "reverse" with
                 | none => true
                 | some v => pyTruthy v
      match crcmodCrc poly.toNat init.toNat rev xo.toNat data with
      | .ok n => .ok (n : Int)
      | .exn m => .exn m
    | .exn m, _, _ => .exn m
    | _, .exn m, _ => .exn m
    | _, _, .exn m => .exn m
  | some "crc16" =>
    match paramInt params "polynomial" 0x18005,
          paramInt params "initial_value" 0xFFFF,
          paramInt params "xor_out" 0x0000 with
    | .ok poly, .ok init, .ok xo =>
      let rev := match lookupKey params "reverse" with
                 | none => true
                 | some v => pyTruthy v
      match crcmodCrc poly.toNat init.toNat rev xo.toNat data with
      | .ok n => .ok (n : Int)
      | .exn m => .exn m
    | .exn m, _, _ => .exn m
    | _, .exn m, _ => .exn m
    | _, _, .exn m => .exn m
  | some "count" =>
    let key := (lookupKey params "key").getD (.vStr "")
    if !pyTruthy key then .ok 0
    else
      match key, context with
      | .vStr s, .vDict m =>
        match lookupKey m s with
        | some (.vList xs) => .ok (xs.length : Int)
        | some _ => .ok 0
        | none => .ok 0
      | _, _ => .ok 0
  | some "length" =>
    match paramInt params "offset" 0, paramInt params "multiplier" 1 with
    | .ok off, .ok mult => .ok ((data.length : Int) * mult + off)
    | .exn m, _ => .exn m
    | _, .exn m => .exn m
  | some "file_size" =>
    .ok ((data.length : Int) + ((assocGet st.field_sizes field.name).getD 0 : Int))
  | some other => .exn ("Unknown function: " ++ other)
  | none => .exn "Unknown function:"

/-- Truthiness of the function attribute (if field.function:). -/
def funcTruthy : Option String → Bool
  | none => false
  | some s => s ≠ ""

mutual

/-- Weight of a document value, bounding the recursion the serializer can
perform inside it (used only to compute sufficient fuel). -/
def vWeight : Value → Nat
  | .vList xs => 1 + vWeightL xs
  | .vDict m => 1 + vWeightD m
  | _ => 1

def vWeightL : List Value → Nat
  | [] => 0
  | x :: xs => 1 + vWeight x + vWeightL xs

def vWeightD : List (String × Value) → Nat
  | [] => 0
  | (_, v) :: rest => 1 + vWeight v + vWeightD rest

end

mutual

/-- Weight of a field descriptor tree (used only to compute sufficient
fuel). -/
def fWeight : FieldDefinition → Nat
  | .mk _ _ _ _ _ fs _ _ _ _ _ _ => 1 + fWeightL fs

def fWeightL : List FieldDefinition → Nat
  | [] => 0
  | f :: rest => 1 + fWeight f + fWeightL rest

end

mutual

/-- BinaryFormatHandler._serialize_field: bytes written for one field value.
Branch order follows the source: TYPE_MAP primitives, int24, string, array,
struct, union, unsupported (note there is no uint24 branch, so a uint24
field reaches the final unsupported-type error).  The leading fuel argument
only bounds recursion for totality in Lean; callers pass fuel exceeding the
depth of every recursion the Python code performs on their inputs. -/
def serialize_field : Nat → Endian → FieldDefinition → Value → Value →
    PyRes (List Nat)
  | 0, _, _, _, _ => .exn "model boundary: recursion fuel exhausted"
  | fuel + 1, e, field, value, context =>
    match field with
    | .mk nm ty sz enc lf childFields _ _ _ _ _ _ =>
      match typeMap ty with
      | some k => packPrim e k value
      | none =>
        if ty = "int24" then
          match asPackInt value with
          | some n =>
            if -8388608 ≤ n ∧ n ≤ 8388607 then
              match packPrim e (.intK 4 true) (.vInt n) with
              | .ok bs => .ok (bs.take 3)
              | .exn m => .exn m
            else .exn "Value out of range for int24"
          | none => .exn "TypeError: comparison not supported"
        else if ty = "string" then
          match value with
          | .vStr str =>
            match pyEncode enc str with
            | .exn m => .exn m
            | .ok encoded =>
              match sz with
              | some n =>
                if n ≠ 0 then .ok (ljustZero (pyTake encoded n) n.toNat)
                else
                  match packU32 e encoded.length with
                  | .ok lenBytes => .ok (lenBytes ++ encoded)
                  | .exn m => .exn m
              | none =>
                match packU32 e encoded.length with
                | .ok lenBytes => .ok (lenBytes ++ encoded)
                | .exn m => .exn m
          | _ => .exn "AttributeError: value has no attribute encode"
        else if ty = "array" then
          match value with
          | .vList vals =>
            let lengthRes : PyRes Int :=
              match lf with
              | some lfExpr =>
                match evalPy [("context", context)] lfExpr with
                | .exn m => .exn m
                | .ok .vNull => .exn ("Length field not found for array " ++ nm)
                | .ok lv =>
                  match asNum lv with
                  | some n => .ok n
                  | none => .exn "TypeError: an integer is required for range"
              | none =>
                match sz with
                | some n =>
                  if n ≠ 0 then (if n < 0 then .ok (vals.length : Int) else .ok n)
                  else .exn ("Array field " ++ nm ++
                    " must have either size or length_field defined")
                | none => .exn ("Array field " ++ nm ++
                    " must have either size or length_field defined")
            match lengthRes with
            | .exn m => .exn m
            | .ok n =>
              match childFields with
              | elemF :: _ => serialize_array_elems fuel e elemF vals context 0 n.toNat
              | [] => .exn "AttributeError: NoneType has no field attributes"
          | _ => .exn ("Expected list for array field " ++ nm)
        else if ty = "struct" then
          match value with
          | .vDict _ => serialize_fields fuel e childFields value context
          | _ => .exn ("Expected dict for struct field " ++ nm)
        else if ty = "union" then
          .exn "model boundary: union fields not modeled"
        else .exn ("Unsupported field type: " ++ ty)

/-- BinaryFormatHandler._serialize_fields (the nested-struct serializer):
conditions are evaluated with locals context and data, calculated fields get
a placeholder without being queued, missing fields raise. -/
def serialize_fields : Nat → Endian → List FieldDefinition → Value → Value →
    PyRes (List Nat)
  | 0, _, _, _, _ => .exn "model boundary: recursion fuel exhausted"
  | fuel + 1, e, fields, data, context =>
    match fields with
    | [] => .ok []
    | field :: rest =>
      let condRes : PyRes Bool :=
        match field.condition with
        | some c =>
          match evalPy [("context", context), ("data", data)] c with
          | .exn m => .exn m
          | .ok v => .ok (pyTruthy v)
        | none => .ok true
      match condRes with
      | .exn m => .exn m
      | .ok false => serialize_fields fuel e rest data context
      | .ok true =>
        if funcTruthy field.function then
          match typeMap field.type with
          | some k =>
            match packPrim e k (.vInt 0) with
            | .ok zeros =>
              match serialize_fields fuel e rest data context with
              | .ok bs => .ok (zeros ++ bs)
              | .exn m => .exn m
            | .exn m => .exn m
          | none => serialize_fields fuel e rest data context
        else
          match data with
          | .vDict m =>
            match lookupKey m field.name with
            | none => .exn ("Missing field in data: " ++ field.name)
            | some value =>
              match serialize_field fuel e field value context with
              | .exn msg => .exn msg
              | .ok bs =>
                match serialize_fields fuel e rest data context with
                | .ok bs2 => .ok (bs ++ bs2)
                | .exn msg => .exn msg
          | _ => .exn "TypeError: argument is not a dict"

/-- The element loop of the array branch: count iterations, reading
value[idx] while it exists and padding with integer zero beyond. -/
def serialize_array_elems : Nat → Endian → FieldDefinition → List Value →
    Value → Nat → Nat → PyRes (List Nat)
  | 0, _, _, _, _, _, _ => .exn "model boundary: recursion fuel exhausted"
  | fuel + 1, e, elemF, vals, context, idx, count =>
    match count with
    | 0 => .ok []
    | count + 1 =>
      let v := if idx < vals.length then vals.getD idx (.vInt 0) else .vInt 0
      match serialize_field fuel e elemF v context with
      | .exn m => .exn m
      | .ok bs =>
        match serialize_array_elems fuel e elemF vals context (idx + 1) count with
        | .exn m => .exn m
        | .ok bs2 => .ok (bs ++ bs2)

end

/-- BinaryFormatHandler._serialize_phase1: walk the top-level fields against
the document, writing bytes (placeholders for calculated fields), recording
offsets and sizes, and queueing calculated fields.  The handler state is
returned on every path, error paths included, because the Python instance
keeps the partial mutations when an exception is raised. -/
def serialize_phase1 (e : Endian) (context : Value) :
    List FieldDefinition → List Nat → HandlerState →
    PyRes Unit × List Nat × HandlerState
  | [], buf, st => (.ok (), buf, st)
  | field :: rest, buf, st =>
    let condRes : PyRes Bool :=
      match field.condition with
      | some c =>
        match evalPy [("context", context), ("data", context)] c with
        | .exn m => .exn m
        | .ok v => .ok (pyTruthy v)
      | none => .ok true
    match condRes with
    | .exn m => (.exn m, buf, st)
    | .ok false => serialize_phase1 e context rest buf st
    | .ok true =>
      match context with
      | .vDict m =>
        match lookupKey m field.name with
        | none => (.exn ("Missing field in data: " ++ field.name), buf, st)
        | some value =>
          if (typeMap field.type).isNone ∧
              ¬ field.type ∈ ["uint24", "int24", "string", "array", "struct", "union"] then
            (.exn ("Unsupported field type: " ++ field.type), buf, st)
          else
            let start_offset := buf.length
            let st1 : HandlerState :=
              { st with field_offsets := assocSet st.field_offsets field.name start_offset }
            if funcTruthy field.function ∧ pyEqV value (.vStr "auto") then
              let stq : HandlerState :=
                { st1 with calculated_fields := st1.calculated_fields ++ [field] }
              match typeMap field.type with
              | none => (.exn ("KeyError: " ++ field.type), buf, stq)
              | some k =>
                match packPrim e k (.vInt 0) with
                | .exn msg => (.exn msg, buf, stq)
                | .ok zeros =>
                  serialize_phase1 e context rest (buf ++ zeros)
                    { stq with field_sizes := assocSet stq.field_sizes field.name k.width }
            else
              match serialize_field (fWeight field + vWeight value + 1) e field
                  value context with
              | .exn msg => (.exn msg, buf, st1)
              | .ok bs =>
                serialize_phase1 e context rest (buf ++ bs)
                  { st1 with field_sizes := assocSet st1.field_sizes field.name bs.length }
      | _ => (.exn "TypeError: argument is not a dict", buf, st)

/-- struct.pack_into for one integer value at an offset of the phase-1
buffer copy. -/
def packIntoPrim (e : Endian) (k : PrimKind) (arr : List Nat) (offset : Nat)
    (value : Int) : PyRes (List Nat) :=
  match packPrim e k (.vInt value) with
  | .exn m => .exn m
  | .ok bs =>
    if offset + k.width ≤ arr.length then
      .ok (arr.take offset ++ bs ++ arr.drop (offset + k.width))
    else .exn "struct.error: pack_into requires a buffer large enough"

/-- The loop of _serialize_phase2 over the queued calculated fields: scopes
are resolved against the unpatched phase-1 buffer while patches accumulate
in the copy, exactly as the source keeps data and data_array apart. -/
def serialize_phase2_loop (e : Endian) (st : HandlerState) (data : List Nat)
    (context : Value) : List FieldDefinition → List Nat → PyRes (List Nat)
  | [], arr => .ok arr
  | field :: rest, arr =>
    match assocGet st.field_offsets field.name with
    | none => serialize_phase2_loop e st data context rest arr
    | some offset =>
      let scty := if field.function_scope = "" then "all_previous"
                  else field.function_scope
      match get_scope_data st.field_offsets st.field_sizes data scty
          field.function_scope_start field.function_scope_end offset with
      | .exn m => .exn m
      | .ok scope_data =>
        match calculate_function_value st field scope_data context with
        | .exn m => .exn m
        | .ok value =>
          match typeMap field.type with
          | some k =>
            match packIntoPrim e k arr offset value with
            | .exn m => .exn m
            | .ok arr2 => serialize_phase2_loop e st data context rest arr2
          | none => serialize_phase2_loop e st data context rest arr

/-- BinaryFormatHandler._serialize_phase2. -/
def serialize_phase2 (e : Endian) (st : HandlerState) (data : List Nat)
    (context : Value) : PyRes (List Nat) :=
  serialize_phase2_loop e st data context st.calculated_fields data

/-- BinaryFormatHandler.serialize_to_binary on an instance whose mutable
attributes hold st: phase 1, then scope resolution and phase 2; any raised
exception is wrapped into a BinaryFormatError message, and the mutated
instance attributes are returned alongside. -/
def serialize_to_binary (e : Endian) (defs : List FieldDefinition)
    (data : Value) (st : HandlerState) : PyRes (List Nat) × HandlerState :=
  match serialize_phase1 e data defs [] st with
  | (.exn m, _, st1) => (.exn ("Serialization failed: " ++ m), st1)
  | (.ok _, buf, st1) =>
    match serialize_phase2 e st1 buf data with
    | .exn m => (.exn ("Serialization failed: " ++ m), st1)
    | .ok final => (.ok final, st1)

/-- A readable byte buffer with a cursor (the BytesIO object decode reads). -/
structure Stream where
  data : List Nat
  pos : Nat
deriving Repr

/-- f.read(n): return up to n bytes from the cursor and advance it by the
number of bytes actually returned. -/
def Stream.read (s : Stream) (n : Nat) : List Nat × Stream :=
  let bs := (s.data.drop s.pos).take n
  (bs, ⟨s.data, s.pos + bs.length⟩)

/-- f.read(-1) and friends: a negative count reads the whole rest. -/
def Stream.readInt (s : Stream) (n : Int) : List Nat × Stream :=
  if n < 0 then
    let bs := s.data.drop s.pos
    (bs, ⟨s.data, s.pos + bs.length⟩)
  else s.read n.toNat

/-- Prefix test on character lists (kernel-computable startswith). -/
def listPrefixOf : List Char → List Char → Bool
  | [], _ => true
  | _ :: _, [] => false
  | a :: as, b :: bs => a == b && listPrefixOf as bs

/-- Messages of the exceptions the decoder raises as BinaryFormatError: the
open-array loop catches exactly these (except BinaryFormatError), while
other exceptions (NameError, TypeError, ValueError, model boundaries)
propagate. -/
def isBFEmsg (m : String) : Bool :=
  listPrefixOf "Unexpected end of file".data m.data ||
  listPrefixOf "Length field".data m.data ||
  listPrefixOf "Array field".data m.data ||
  listPrefixOf "Unsupported field type".data m.data ||
  listPrefixOf "Missing field in data".data m.data ||
  listPrefixOf "Expected list".data m.data ||
  listPrefixOf "Expected dict".data m.data ||
  listPrefixOf "Value out of range".data m.data

/-- The variable-size branch of the string decoder: a 32-bit length prefix
in the configured byte order, then that many bytes, decoded with
errors=replace. -/
def deserialize_var_string (e : Endian) (nm enc : String) (path1 : String)
    (s : Stream) (ctx : Value) : PyRes Unit × Stream × Value :=
  let (lbs, s2) := s.read 4
  if lbs.length < 4 then
    (.exn ("Unexpected end of file reading " ++ nm ++ " length"), s2, ctx)
  else
    let length := natFromLE (orderBytes e lbs)
    let (bs, s3) := s2.read length
    if bs.length < length then
      (.exn ("Unexpected end of file reading " ++ nm), s3, ctx)
    else
      match pyDecodeReplace enc bs with
      | .exn m => (.exn m, s3, ctx)
      | .ok str =>
        match write_nested_value ctx path1 (.vStr str) with
        | .ok ctx2 => (.ok (), s3, ctx2)
        | .exn m => (.exn m, s3, ctx)

/-- The fixed-size branch of the string decoder: exactly size bytes, strip
trailing NULs, decode with errors=replace. -/
def deserialize_fixed_string (_e : Endian) (nm enc : String) (n : Int)
    (path1 : String) (s : Stream) (ctx : Value) : PyRes Unit × Stream × Value :=
  let (bs, s2) := s.readInt n
  if (bs.length : Int) < n then
    (.exn ("Unexpected end of file reading " ++ nm), s2, ctx)
  else
    match pyDecodeReplace enc (rstripZeros bs) with
    | .exn m => (.exn m, s2, ctx)
    | .ok str =>
      match write_nested_value ctx path1 (.vStr str) with
      | .ok ctx2 => (.ok (), s2, ctx2)
      | .exn m => (.exn m, s2, ctx)

mutual

/-- BinaryFormatHandler._deserialize_fields: per field, fetch the value at
the running path, evaluate the condition against context and that value,
then decode the field unless the condition was falsy.  The fuel argument
only bounds recursion for totality in Lean. -/
def deserialize_fields : Nat → Endian → List FieldDefinition → String →
    Stream → Value → PyRes Unit × Stream × Value
  | 0, _, _, _, s, ctx => (.exn "model boundary: recursion fuel exhausted", s, ctx)
  | fuel + 1, e, fields, path, s, ctx =>
    match fields with
    | [] => (.ok (), s, ctx)
    | field :: rest =>
      match get_nested_value ctx path with
      | .exn m => (.exn m, s, ctx)
      | .ok dataAtPath =>
        let condRes : PyRes Bool :=
          match field.condition with
          | some c =>
            match evalPy [("context", ctx), ("data", dataAtPath)] c with
            | .exn m => .exn m
            | .ok v => .ok (pyTruthy v)
          | none => .ok true
        match condRes with
        | .exn m => (.exn m, s, ctx)
        | .ok false => deserialize_fields fuel e rest path s ctx
        | .ok true =>
          match deserialize_field fuel e field path s ctx with
          | (.ok _, s2, ctx2) => deserialize_fields fuel e rest path s2 ctx2
          | (.exn m, s2, ctx2) => (.exn m, s2, ctx2)

/-- BinaryFormatHandler._deserialize_field: decode one field at the running
path.  Branch order follows the source: TYPE_MAP primitives, int24 (three
bytes plus an appended NUL byte, so no sign extension), uint24, string,
array (fixed count, expression count, or open-ended below zero), struct,
union, unsupported. -/
def deserialize_field : Nat → Endian → FieldDefinition → String → Stream →
    Value → PyRes Unit × Stream × Value
  | 0, _, _, _, s, ctx => (.exn "model boundary: recursion fuel exhausted", s, ctx)
  | fuel + 1, e, field, path, s, ctx =>
    match field with
    | .mk nm ty sz enc lf childFields _ _ _ _ _ _ =>
      match typeMap ty with
      | some k =>
        let path1 := if nm ≠ "#" then path ++ nm else path
        let (bs, s2) := s.read k.width
        if bs.length < k.width then
          (.exn ("Unexpected end of file reading " ++ nm), s2, ctx)
        else
          match unpackPrim e k bs with
          | .exn m => (.exn m, s2, ctx)
          | .ok result =>
            match write_nested_value ctx path1 result with
            | .ok ctx2 => (.ok (), s2, ctx2)
            | .exn m => (.exn m, s2, ctx)
      | none =>
        if ty = "int24" then
          let path1 := path ++ nm
          let (bs, s2) := s.read 3
          if bs.length < 3 then
            (.exn ("Unexpected end of file reading " ++ nm), s2, ctx)
          else
            match unpackPrim e (.intK 4 true) (bs ++ [0]) with
            | .exn m => (.exn m, s2, ctx)
            | .ok result =>
              match write_nested_value ctx path1 result with
              | .ok ctx2 => (.ok (), s2, ctx2)
              | .exn m => (.exn m, s2, ctx)
        else if ty = "uint24" then
          let path1 := path ++ nm
          let (bs, s2) := s.read 3
          if bs.length < 3 then
            (.exn ("Unexpected end of file reading " ++ nm), s2, ctx)
          else
            match unpackPrim e (.intK 4 false) (bs ++ [0]) with
            | .exn m => (.exn m, s2, ctx)
            | .ok result =>
              match write_nested_value ctx path1 result with
              | .ok ctx2 => (.ok (), s2, ctx2)
              | .exn m => (.exn m, s2, ctx)
        else if ty = "string" then
          let path1 := path ++ nm
          match sz with
          | some n =>
            if n ≠ 0 then deserialize_fixed_string e nm enc n path1 s ctx
            else deserialize_var_string e nm enc path1 s ctx
          | none => deserialize_var_string e nm enc path1 s ctx
        else if ty = "array" then
          let lengthRes : PyRes Int :=
            match lf with
            | some lfExpr =>
              match evalPy [("context", ctx)] lfExpr with
              | .exn m => .exn m
              | .ok .vNull => .exn ("Length field not found for array " ++ nm)
              | .ok lv =>
                match asNum lv with
                | some n => .ok n
                | none => .exn "TypeError: an integer is required for range"
            | none =>
              match sz with
              | some n =>
                if n ≠ 0 then .ok n
                else .exn ("Array field " ++ nm ++
                  " must have either size or length_field defined")
              | none => .exn ("Array field " ++ nm ++
                  " must have either size or length_field defined")
          match lengthRes with
          | .exn m => (.exn m, s, ctx)
          | .ok n =>
            match childFields with
            | elemF :: _ =>
              if 0 ≤ n then
                deserialize_array_elems fuel e elemF (path ++ nm) 0 n.toNat s ctx
              else
                deserialize_array_open fuel e elemF (path ++ nm) 0 s ctx
            | [] => (.exn "AttributeError: NoneType has no attribute type", s, ctx)
        else if ty = "struct" then
          if nm ≠ "#" then
            deserialize_fields fuel e childFields (path ++ "." ++ nm ++ ".") s ctx
          else deserialize_fields fuel e childFields (path ++ ".") s ctx
        else if ty = "union" then
          (.exn "model boundary: union fields not modeled", s, ctx)
        else (.exn ("Unsupported field type: " ++ ty), s, ctx)

/-- The fixed-count element loop of the array decoder: zero-based indices
appended to the path. -/
def deserialize_array_elems : Nat → Endian → FieldDefinition → String →
    Nat → Nat → Stream → Value → PyRes Unit × Stream × Value
  | 0, _, _, _, _, _, s, ctx =>
    (.exn "model boundary: recursion fuel exhausted", s, ctx)
  | fuel + 1, e, elemF, basePath, i, count, s, ctx =>
    match count with
    | 0 => (.ok (), s, ctx)
    | count + 1 =>
      match deserialize_field fuel e elemF (basePath ++ "[" ++ natRepr i ++ "]") s ctx with
      | (.ok _, s2, ctx2) =>
        deserialize_array_elems fuel e elemF basePath (i + 1) count s2 ctx2
      | (.exn m, s2, ctx2) => (.exn m, s2, ctx2)

/-- The open-ended array loop (size below zero): the index is incremented
before its first use, so the first element lands at index 1; a raised
BinaryFormatError ends the loop without error after the warning print has
moved the cursor to the end of the buffer (f.seek(0, SEEK_END)); any other
exception propagates.  The Python loop runs until such an exception; the
fuel bounds it in Lean, and exceeds the iteration count whenever every
element consumes at least one byte (a zero-byte element would make the
Python loop spin forever, which a total model cannot reproduce). -/
def deserialize_array_open : Nat → Endian → FieldDefinition → String →
    Nat → Stream → Value → PyRes Unit × Stream × Value
  | 0, _, _, _, _, s, ctx =>
    (.exn "model boundary: recursion fuel exhausted", s, ctx)
  | fuel + 1, e, elemF, basePath, i, s, ctx =>
    match deserialize_field fuel e elemF
        (basePath ++ "[" ++ natRepr (i + 1) ++ "]") s ctx with
    | (.exn m, s2, ctx2) =>
      if isBFEmsg m then (.ok (), ⟨s2.data, s2.data.length⟩, ctx2)
      else (.exn m, s2, ctx2)
    | (.ok _, s2, ctx2) => deserialize_array_open fuel e elemF basePath (i + 1) s2 ctx2

end

/-- BinaryFormatHandler.deserialize_from_binary on a bytes input: parse the
fields (stateless), decode into a fresh document, wrap any exception. -/
def deserialize_from_binary (e : Endian) (defs : List FieldDefinition)
    (input : List Nat) : PyRes Value :=
  match deserialize_fields (fWeightL defs + input.length * 2 + 2) e defs ""
      ⟨input, 0⟩ (.vDict []) with
  | (.ok _, _, ctx) => .ok ctx
  | (.exn m, _, _) => .exn ("Deserialization failed: " ++ m)

/-! Concrete schemas used by the claim theorems (values of the parsed
FieldDefinition tree, written with all attributes explicit: name, type,
size, encoding, length_field, fields, condition, function, function_scope,
function_scope_start, function_scope_end, function_parameters). -/

/-- Schema with a single open-ended array of uint16 (size -1), spec scenario
5. -/
def openArrSchema : List FieldDefinition :=
  [.mk "items" "array" (some (-1)) "utf-8" none
      [.mk "#" "uint16" none "utf-8" none [] none none "all_previous" none none []]
      none none "all_previous" none none []]

/-- Schema with a single int24 field. -/
def int24Schema : List FieldDefinition :=
  [.mk "x" "int24" none "utf-8" none [] none none "all_previous" none none []]

/-- Schema with a single uint24 field. -/
def uint24Schema : List FieldDefinition :=
  [.mk "y" "uint24" none "utf-8" none [] none none "all_previous" none none []]

/-- Schema with a single fixed-size (2 byte) utf-8 string field. -/
def strSchema : List FieldDefinition :=
  [.mk "s" "string" (some 2) "utf-8" none [] none none "all_previous" none none []]

/-- Spec scenario 3: a uint8, b uint16 and a crc32 calculated field over
field_range(a, b). -/
def crcSchema : List FieldDefinition :=
  [.mk "a" "uint8" none "utf-8" none [] none none "all_previous" none none [],
   .mk "b" "uint16" none "utf-8" none [] none none "all_previous" none none [],
   .mk "crc" "uint32" none "utf-8" none [] none (some "crc32") "field_range"
     (some "a") (some "b") []]

/-- The schema of the repository test test_parameters_override_top_level_scope:
descriptor-level scope entire_file, with a field_range(a, b) override inside
function_parameters. -/
def paramsOverrideSchema : List FieldDefinition :=
  [.mk "a" "uint8" none "utf-8" none [] none none "all_previous" none none [],
   .mk "b" "uint16" none "utf-8" none [] none none "all_previous" none none [],
   .mk "crc" "uint32" none "utf-8" none [] none (some "crc32") "entire_file"
     none none
     [("function_scope", .vStr "field_range"),
      ("function_scope_start", .vStr "a"),
      ("function_scope_end", .vStr "b"),
      ("initial_value", .vInt 0xFFFFFFFF)]]

/-- Spec scenario 6 with the condition exactly as written there and in the
repository test test_optional_fields.py: the bare expression count > 0. -/
def condSchemaBare : List FieldDefinition :=
  [.mk "count" "uint8" none "utf-8" none [] none none "all_previous" none none [],
   .mk "opt" "uint16" none "utf-8" none []
     (some (.gt (.name "count") (.intLit 0))) none "all_previous" none none []]

/-- The same schema with the condition written in the form the working
repository tests use, subscripting the eval local: data[count] > 0. -/
def condSchemaCtx : List FieldDefinition :=
  [.mk "count" "uint8" none "utf-8" none [] none none "all_previous" none none [],
   .mk "opt" "uint16" none "utf-8" none []
     (some (.gt (.subscript (.name "data") "count") (.intLit 0)))
     none "all_previous" none none []]

/-- Schema for the reuse counterexample: a conditional calculated field
followed by a plain field. -/
def c4Schema : List FieldDefinition :=
  [.mk "flag" "uint8" none "utf-8" none [] none none "all_previous" none none [],
   .mk "chk" "uint32" none "utf-8" none []
     (some (.gt (.subscript (.name "data") "flag") (.intLit 0)))
     (some "crc32") "all_previous" none none [],
   .mk "tail" "uint32" none "utf-8" none [] none none "all_previous" none none []]

def c4doc1 : Value :=
  .vDict [("flag", .vInt 1), ("chk", .vStr "auto"), ("tail", .vInt 0x01020304)]

def c4doc2 : Value := .vDict [("flag", .vInt 0), ("tail", .vInt 0x11111111)]

/-- The CRC the handler computes for function crc32 with default parameters
(crcmod with poly 0x104C11DB7, initCrc = xorOut = 0xFFFFFFFF): the shift
register starts at initCrc XOR xorOut = 0, not at 0xFFFFFFFF as in the
standard CRC-32. -/
def crc32_default (data : List Nat) : Nat :=
  (data.foldl (fun r b => crcBitsRev 0xEDB88320 8 (r ^^^ b)) 0) ^^^ 0xFFFFFFFF

/-- The document of spec scenario 3 with symbolic field values. -/
def c9m (av bv : Nat) : List (String × Value) :=
  [("a", .vInt av), ("b", .vInt bv), ("crc", .vStr "auto")]

/-- The first field of crcSchema. -/
def c9fA : FieldDefinition :=
  .mk "a" "uint8" none "utf-8" none [] none none "all_previous" none none []

/-- The second field of crcSchema. -/
def c9fB : FieldDefinition :=
  .mk "b" "uint16" none "utf-8" none [] none none "all_previous" none none []

/-- The calculated field of crcSchema. -/
def c9crcField : FieldDefinition :=
  .mk "crc" "uint32" none "utf-8" none [] none (some "crc32") "field_range"
    (some "a") (some "b") []

/-- The handler state after phase 1 of spec scenario 3. -/
def c9state : HandlerState :=
  ⟨[c9crcField], [("a", 0), ("b", 1), ("crc", 3)], [("a", 1), ("b", 2), ("crc", 4)]⟩

/-- The bytes struct.pack emits for an in-range integer value of width w. -/
def primBytes (e : Endian) (w : Nat) (n : Int) : List Nat :=
  orderBytes e (natLE w ((n % (2 ^ (8 * w) : Int)).toNat))

/-- Acceptance range of struct.pack for a signed or unsigned format of
width w. -/
def intFits (w : Nat) (sgn : Bool) (n : Int) : Prop :=
  match sgn with
  | true => -(2 ^ (8 * w - 1) : Int) ≤ n ∧ n < (2 ^ (8 * w - 1) : Int)
  | false => 0 ≤ n ∧ n < (2 ^ (8 * w) : Int)

/-- Characters of a field name that survive the path machinery: no dots
(splitting), no brackets (index parsing). -/
def goodNameChar (c : Char) : Bool := c != '.' && c != '[' && c != ']'

/-- A field name the decoder writes back verbatim at the top level. -/
def goodName (s : String) : Bool :=
  !s.data.isEmpty && s.data.all goodNameChar && s != "#"

/-- One top-level field of the restricted class together with a conforming
value: an integer primitive in range, a utf-8 string (variable size, or
fixed size with the encoding fitting and not NUL-terminated), or a
fixed-size array of integer primitives with exactly size elements; no
conditions, functions or length_field expressions. -/
def fieldOk (f : FieldDefinition) (v : Value) : Prop :=
  goodName f.name = true ∧ f.condition = none ∧ f.function = none ∧
  f.length_field = none ∧
  ((∃ w sgn n, typeMap f.type = some (.intK w sgn) ∧ 0 < w ∧ v = .vInt n ∧
      intFits w sgn n) ∨
   (f.type = "string" ∧ f.encoding = "utf-8" ∧
     ∃ str, v = .vStr str ∧
       ((f.size = none ∧ (utf8Encode str).length < 2 ^ 32) ∨
        (∃ kn : Nat, f.size = some ((kn : Nat) : Int) ∧ 0 < kn ∧
          (utf8Encode str).length ≤ kn ∧
          (utf8Encode str).getLast? ≠ some 0))) ∨
   (f.type = "array" ∧
     ∃ (ef : FieldDefinition) (w : Nat) (sgn : Bool) (ns : List Int),
       f.fields = [ef] ∧ ef.name = "#" ∧
       typeMap ef.type = some (.intK w sgn) ∧ 0 < w ∧
       v = .vList (ns.map .vInt) ∧ f.size = some ((ns.length : Nat) : Int) ∧
       0 < ns.length ∧ ∀ x ∈ ns, intFits w sgn x))

/-- A document conforming to a flat schema: exactly the schema fields, in
order, each with a conforming value. -/
def conformsDoc (defs : List FieldDefinition) (m : List (String × Value)) : Prop :=
  List.Forall₂ (fun f kv => kv.1 = f.name ∧ fieldOk f kv.2) defs m

/-- Flat schema used to witness the amended round-trip claim: an integer
primitive, a fixed-size string, a variable-size string and a fixed-size
array of int16. -/
def c1wSchema : List FieldDefinition :=
  [.mk "a" "uint8" none "utf-8" none [] none none "all_previous" none none [],
   .mk "s" "string" (some 3) "utf-8" none [] none none "all_previous" none none [],
   .mk "t" "string" none "utf-8" none [] none none "all_previous" none none [],
   .mk "arr" "array" (some 2) "utf-8" none
     [.mk "#" "int16" none "utf-8" none [] none none "all_previous" none none []]
     none none "all_previous" none none []]

/-- A document conforming to c1wSchema. -/
def c1wDoc : List (String × Value) :=
  [("a", .vInt 7), ("s", .vStr "ab"), ("t", .vStr "hey"),
   ("arr", .vList [.vInt (-2), .vInt 300])]

/-- A fixed-size utf-8 string field of size n named s. -/
def c10strFieldN (n : Nat) : FieldDefinition :=
  .mk "s" "string" (some ((n : Nat) : Int)) "utf-8" none [] none none
    "all_previous" none none []

/-- A variable-size utf-8 string field named s. -/
def c10varField : FieldDefinition :=
  .mk "s" "string" none "utf-8" none [] none none "all_previous" none none []

/-! Claim theorems. -/

/-- C2: evaluating the decoder at the claim's own example refutes the claimed
output: with schema [items: open-ended array of uint16, size -1] and bytes
01 00 02 00 03 00, the code yields items = [None, 1, 2, 3] — the loop index
is incremented before its first use, so the elements land at indices 1..3
and index 0 is filled with None padding — not the claimed [1, 2, 3]; the
end-of-buffer does terminate the loop without error, but the decoded list is
not exactly the elements read. -/
theorem C2_open_array_off_by_one :
    deserialize_from_binary .little openArrSchema [1, 0, 2, 0, 3, 0] =
      .ok (.vDict [("items", .vList [.vNull, .vInt 1, .vInt 2, .vInt 3])]) ∧
    pyEqV (.vDict [("items", .vList [.vNull, .vInt 1, .vInt 2, .vInt 3])])
      (.vDict [("items", .vList [.vInt 1, .vInt 2, .vInt 3])]) = false :=
  ⟨rfl, rfl⟩

/-- C8: int24 does not sign-extend on decode — the code appends a NUL byte
to the three wire bytes and unpacks, so encoding -1 (bytes FF FF FF) decodes
to 16777215, breaking the claimed round trip for negative values; moreover
uint24 cannot be encoded at all, because _serialize_field has no uint24
branch and raises the unsupported-type error that phase 1 had just ruled
out. -/
theorem C8_int24_uint24_broken :
    (serialize_to_binary .little int24Schema (.vDict [("x", .vInt (-1))]) initState).1 =
      .ok [255, 255, 255] ∧
    deserialize_from_binary .little int24Schema [255, 255, 255] =
      .ok (.vDict [("x", .vInt 16777215)]) ∧
    pyEqV (.vInt 16777215) (.vInt (-1)) = false ∧
    (serialize_to_binary .little uint24Schema (.vDict [("y", .vInt 5)]) initState).1 =
      .exn "Serialization failed: Unsupported field type: uint24" :=
  ⟨by decide, rfl, rfl, by decide⟩

/-- C3: a calculated field that is absent from the document makes encode
fail with the missing-field error, because _serialize_phase1 checks
membership before it looks at function and the auto sentinel; with the field
present as auto the same encode succeeds.  The claim (and the spec and the
two-phase example script) say absence is accepted. -/
theorem C3_absent_calculated_field_rejected :
    (serialize_to_binary .little crcSchema
        (.vDict [("a", .vInt 1), ("b", .vInt 2)]) initState).1 =
      .exn "Serialization failed: Missing field in data: crc" ∧
    (serialize_to_binary .little crcSchema
        (.vDict [("a", .vInt 1), ("b", .vInt 2), ("crc", .vStr "auto")]) initState).1 =
      .ok [1, 2, 0, 74, 247, 11, 204] :=
  ⟨by decide, by decide⟩

/-- C5: the claim's own example schema fails: the condition string
count > 0 is passed to eval with only the names context and data bound, so
the bare name count raises NameError and both encodes fail instead of
producing 1 and 3 bytes.  With the condition written data[count] > 0, as the
working repository tests do, the claimed behavior holds: encoding count = 0
gives exactly 1 byte, encoding count = 5 with opt = 1234 gives exactly
3 bytes, and the field is likewise absent from the decoded document. -/
theorem C5_bare_condition_name_error :
    (serialize_to_binary .little condSchemaBare (.vDict [("count", .vInt 0)]) initState).1 =
      .exn "Serialization failed: NameError: name count is not defined" ∧
    (serialize_to_binary .little condSchemaBare
        (.vDict [("count", .vInt 5), ("opt", .vInt 1234)]) initState).1 =
      .exn "Serialization failed: NameError: name count is not defined" ∧
    (serialize_to_binary .little condSchemaCtx (.vDict [("count", .vInt 0)]) initState).1 =
      .ok [0] ∧
    (serialize_to_binary .little condSchemaCtx
        (.vDict [("count", .vInt 5), ("opt", .vInt 1234)]) initState).1 =
      .ok [5, 210, 4] ∧
    deserialize_from_binary .little condSchemaCtx [0] =
      .ok (.vDict [("count", .vInt 0)]) :=
  ⟨by decide, by decide, by decide, by decide, rfl⟩

/-- C6: the scope override carried in function_parameters is ignored — the
code resolves the scope from the descriptor-level function_scope only
(entire_file here, covering the whole phase-1 buffer, placeholder zeros
included), so the crc bytes differ from the field_range(a, b) value that the
override (and the repository test test_parameters_override_top_level_scope)
requires. -/
theorem C6_function_parameters_scope_ignored :
    (serialize_to_binary .little paramsOverrideSchema
        (.vDict [("a", .vInt 0x11), ("b", .vInt 0x2233), ("crc", .vStr "auto")])
        initState).1 =
      .ok [0x11, 0x33, 0x22, 226, 97, 185, 7] ∧
    natLE 4 (crc32_default [0x11, 0x33, 0x22]) = [108, 18, 16, 195] ∧
    ([226, 97, 185, 7] : List Nat) ≠ [108, 18, 16, 195] :=
  ⟨by decide, by decide, by decide⟩

/-- C1 counterexample: the round trip fails on a conforming document — with
schema [s: string of fixed size 2], the document s = abc encodes to the two
truncated bytes 61 62, which decode to ab, and Python == distinguishes the
result from the original. -/
theorem C1_counterexample :
    (serialize_to_binary .little strSchema (.vDict [("s", .vStr "abc")]) initState).1 =
      .ok [97, 98] ∧
    deserialize_from_binary .little strSchema [97, 98] =
      .ok (.vDict [("s", .vStr "ab")]) ∧
    pyEqV (.vDict [("s", .vStr "ab")]) (.vDict [("s", .vStr "abc")]) = false :=
  ⟨by decide, rfl, rfl⟩

/-- C4 counterexample: encode is not a pure function of its inputs across
calls — the calculated-field queue and offset map survive the first call, so
encoding c4doc2 (whose condition excludes the calculated field) after
encoding c4doc1 patches a stale CRC over the bytes of the tail field,
producing different output than a fresh instance. -/
theorem C4_counterexample :
    (serialize_to_binary .little c4Schema c4doc2
        (serialize_to_binary .little c4Schema c4doc1 initState).2).1 =
      .ok [0, 255, 255, 255, 255] ∧
    (serialize_to_binary .little c4Schema c4doc2 initState).1 =
      .ok [0, 17, 17, 17, 17] ∧
    ((.ok [0, 255, 255, 255, 255] : PyRes (List Nat)) ≠ .ok [0, 17, 17, 17, 17]) :=
  ⟨by decide, by decide, by decide⟩

/-- C7 counterexample: resolving a last_n_bytes scope with no scope_start
parameter is not an error — the code silently substitutes N = 100 and
returns the byte range, here the whole three-byte buffer. -/
theorem C7_counterexample :
    get_scope_data [] [] [10, 20, 30] "last_n_bytes" none none 3 =
      .ok [10, 20, 30] := by decide

/-- C9 counterexample: at the spec's own scenario (a = AA, b = BBCC), the
crc field bytes are 0F D5 EC 10, which are not the little-endian bytes of
the standard reflected CRC-32 of AA CC BB (E2 F3 52 10): crcmod interprets
initial_value = 0xFFFFFFFF as pre-xored with xor_out, so the handler's shift
register starts at 0, not 0xFFFFFFFF. -/
theorem C9_counterexample :
    (serialize_to_binary .little crcSchema
        (.vDict [("a", .vInt 0xAA), ("b", .vInt 0xBBCC), ("crc", .vStr "auto")])
        initState).1 =
      .ok [0xAA, 0xCC, 0xBB, 15, 213, 236, 16] ∧
    natLE 4 (standardCrc32 [0xAA, 0xCC, 0xBB]) = [226, 243, 82, 16] ∧
    ([15, 213, 236, 16] : List Nat) ≠ [226, 243, 82, 16] :=
  ⟨by decide, by decide, by decide⟩

/-- C7 (amended): scope resolution fails for unknown scope kinds, and for
field_range, from_field, to_field, after_field and specific_bytes when a
required parameter is missing; but last_n_bytes with no scope_start is never
an error — it silently defaults to N = 100 and resolves to
[max(0, current_offset - 100), current_offset). -/
theorem C7_amended :
    (∀ (fo fs : List (String × Nat)) (data : List Nat) (off : Nat),
      get_scope_data fo fs data "last_n_bytes" none none off =
        .ok (pySlice data (max 0 ((off : Int) - 100)) off)) ∧
    (∀ (fo fs : List (String × Nat)) (data : List Nat)
        (a b : Option String) (off : Nat) (sc : String),
      sc ∉ ["all_previous", "entire_file", "from_start", "field_range",
            "from_field", "to_field", "after_field", "last_n_bytes",
            "specific_bytes"] →
      get_scope_data fo fs data sc a b off = .exn ("Unknown scope type: " ++ sc)) ∧
    (∀ (fo fs : List (String × Nat)) (data : List Nat) (b : Option String) (off : Nat),
      get_scope_data fo fs data "field_range" none b off =
        .exn "field_range scope requires both scope_start and scope_end") ∧
    (∀ (fo fs : List (String × Nat)) (data : List Nat) (off : Nat),
      get_scope_data fo fs data "field_range" (some "a") none off =
        .exn "field_range scope requires both scope_start and scope_end") ∧
    (∀ (fo fs : List (String × Nat)) (data : List Nat) (off : Nat),
      get_scope_data fo fs data "from_field" none none off =
        .exn "from_field scope requires scope_start") ∧
    (∀ (fo fs : List (String × Nat)) (data : List Nat) (off : Nat),
      get_scope_data fo fs data "to_field" none none off =
        .exn "to_field scope requires scope_end") ∧
    (∀ (fo fs : List (String × Nat)) (data : List Nat) (off : Nat),
      get_scope_data fo fs data "after_field" none none off =
        .exn "after_field scope requires scope_start") ∧
    (∀ (fo fs : List (String × Nat)) (data : List Nat) (off : Nat),
      get_scope_data fo fs data "specific_bytes" none none off =
        .exn "specific_bytes scope requires range in scope_start (format start:end)") := by
  refine ⟨fun fo fs data off => rfl, ?_, fun fo fs data b off => rfl,
    fun fo fs data off => rfl, fun fo fs data off => rfl,
    fun fo fs data off => rfl, fun fo fs data off => rfl,
    fun fo fs data off => rfl⟩
  intro fo fs data a b off sc h
  simp only [List.mem_cons, List.mem_singleton, not_or] at h
  obtain ⟨h1, h2, h3, h4, h5, h6, h7, h8, h9, -⟩ := h
  simp only [get_scope_data, if_neg h1, if_neg h2, if_neg h3, if_neg h4,
    if_neg h5, if_neg h6, if_neg h7, if_neg h8, if_neg h9]

/-- C7 witness: the amended theorem applied at concrete inputs. -/
theorem C7_amended_witness :
    get_scope_data [] [] [1, 2, 3] "last_n_bytes" none none 3 = .ok [1, 2, 3] ∧
    get_scope_data [] [] [1, 2, 3] "bogus_scope" none none 0 =
      .exn "Unknown scope type: bogus_scope" ∧
    get_scope_data [] [] [1, 2, 3] "from_field" none none 0 =
      .exn "from_field scope requires scope_start" :=
  ⟨(C7_amended.1 [] [] [1, 2, 3] 3).trans (by decide),
   C7_amended.2.1 [] [] [1, 2, 3] none none 0 "bogus_scope" (by decide),
   C7_amended.2.2.2.2.1 [] [] [1, 2, 3] 0⟩

/-- crcmodCrc at the handler's crc32 defaults computes crc32_default. -/
theorem crcmodCrc_default_eq (data : List Nat) :
    crcmodCrc 0x104C11DB7 0xFFFFFFFF true 0xFFFFFFFF data =
      .ok (crc32_default data) := rfl

theorem crcBitsRev_lt (revpoly : Nat) (hp : revpoly < 2 ^ 32) :
    ∀ (k r : Nat), r < 2 ^ 32 → crcBitsRev revpoly k r < 2 ^ 32 := by
  intro k
  induction k with
  | zero => intro r hr; simpa [crcBitsRev] using hr
  | succ k ih =>
    intro r hr
    simp only [crcBitsRev]
    apply ih
    split
    · exact Nat.xor_lt_two_pow (by omega) hp
    · omega

theorem crc32_default_lt (data : List Nat) (h : ∀ b ∈ data, b < 256) :
    crc32_default data < 2 ^ 32 := by
  have hfold : ∀ (l : List Nat), (∀ b ∈ l, b < 256) → ∀ (r : Nat), r < 2 ^ 32 →
      l.foldl (fun r b => crcBitsRev 0xEDB88320 8 (r ^^^ b)) r < 2 ^ 32 := by
    intro l
    induction l with
    | nil => intro _ r hr; simpa using hr
    | cons b rest ih =>
      intro hl r hr
      simp only [List.foldl_cons]
      apply ih (fun x hx => hl x (List.mem_cons_of_mem _ hx))
      apply crcBitsRev_lt _ (by norm_num)
      exact Nat.xor_lt_two_pow hr (by have := hl b (List.mem_cons_self b rest); omega)
  have hreg : data.foldl (fun r b => crcBitsRev 0xEDB88320 8 (r ^^^ b)) 0 < 2 ^ 32 :=
    hfold data h 0 (by norm_num)
  exact Nat.xor_lt_two_pow hreg (by norm_num)

theorem packPrim_unsigned_le (w n : Nat) (h : n < 2 ^ (8 * w)) :
    packPrim .little (.intK w false) (.vInt n) = .ok (natLE w n) := by
  have h0 : (0 : Int) ≤ (n : Int) := Int.ofNat_nonneg n
  have h1 : (n : Int) < 2 ^ (8 * w) := by exact_mod_cast h
  simp [packPrim, asPackInt, h0, h1, orderBytes]

/-! Small-step lemmas about the serializer, used to evaluate it on schemas
with symbolic field values. -/

theorem serialize_phase1_nil (e : Endian) (ctx : Value) (buf : List Nat)
    (st : HandlerState) : serialize_phase1 e ctx [] buf st = (.ok (), buf, st) := rfl

/-- One phase-1 step for an unconditional non-calculated field that
serializes successfully. -/
theorem serialize_phase1_cons_plain (e : Endian) (m : List (String × Value))
    (field : FieldDefinition) (rest : List FieldDefinition) (buf : List Nat)
    (st : HandlerState) (v : Value) (bs : List Nat)
    (hcond : field.condition = none)
    (hlook : lookupKey m field.name = some v)
    (hty : ¬((typeMap field.type).isNone = true ∧
      ¬ field.type ∈ ["uint24", "int24", "string", "array", "struct", "union"]))
    (hfn : funcTruthy field.function = false)
    (hser : serialize_field (fWeight field + vWeight v + 1) e field v (.vDict m) =
      .ok bs) :
    serialize_phase1 e (.vDict m) (field :: rest) buf st =
      serialize_phase1 e (.vDict m) rest (buf ++ bs)
        ⟨st.calculated_fields,
         assocSet st.field_offsets field.name buf.length,
         assocSet st.field_sizes field.name bs.length⟩ := by
  simp [serialize_phase1, hcond, hlook, hty, hfn, hser]
  intro h1 h2 h3 h4 h5 h6 h7
  exact absurd ⟨by simp [h1], by simp [h2, h3, h4, h5, h6, h7]⟩ hty

/-- One phase-1 step for a calculated field present with the auto sentinel:
a placeholder is emitted and the field is queued. -/
theorem serialize_phase1_cons_auto (e : Endian) (m : List (String × Value))
    (field : FieldDefinition) (rest : List FieldDefinition) (buf : List Nat)
    (st : HandlerState) (v : Value) (k : PrimKind) (zeros : List Nat)
    (hcond : field.condition = none)
    (hlook : lookupKey m field.name = some v)
    (htype : typeMap field.type = some k)
    (hfn : funcTruthy field.function = true)
    (hauto : pyEqV v (.vStr "auto") = true)
    (hpack : packPrim e k (.vInt 0) = .ok zeros) :
    serialize_phase1 e (.vDict m) (field :: rest) buf st =
      serialize_phase1 e (.vDict m) rest (buf ++ zeros)
        ⟨st.calculated_fields ++ [field],
         assocSet st.field_offsets field.name buf.length,
         assocSet st.field_sizes field.name k.width⟩ := by
  simp [serialize_phase1, hcond, hlook, htype, hfn, hauto, hpack]

/-- One serialize_field step on a TYPE_MAP primitive. -/
theorem serialize_field_prim (fuel : Nat) (e : Endian) (field : FieldDefinition)
    (v ctx : Value) (k : PrimKind) (h : typeMap field.type = some k) :
    serialize_field (fuel + 1) e field v ctx = packPrim e k v := by
  obtain ⟨nm, ty, sz, enc, lf, cf, cond, fn, fsc, fss, fse, fp⟩ := field
  simp only [FieldDefinition.type] at h
  simp [serialize_field, h]

theorem serialize_phase2_loop_nil (e : Endian) (st : HandlerState)
    (data : List Nat) (ctx : Value) (arr : List Nat) :
    serialize_phase2_loop e st data ctx [] arr = .ok arr := rfl

/-- One phase-2 step for a queued primitive-typed field with a recorded
offset: resolve the scope on the unpatched buffer, compute, patch. -/
theorem serialize_phase2_loop_cons (e : Endian) (st : HandlerState)
    (data : List Nat) (ctx : Value) (field : FieldDefinition)
    (rest : List FieldDefinition) (arr : List Nat) (off : Nat)
    (scopeBytes : List Nat) (value : Int) (k : PrimKind) (arr2 : List Nat)
    (hoff : assocGet st.field_offsets field.name = some off)
    (hscope : get_scope_data st.field_offsets st.field_sizes data
      (if field.function_scope = "" then "all_previous" else field.function_scope)
      field.function_scope_start field.function_scope_end off = .ok scopeBytes)
    (hval : calculate_function_value st field scopeBytes ctx = .ok value)
    (htype : typeMap field.type = some k)
    (hpack : packIntoPrim e k arr off value = .ok arr2) :
    serialize_phase2_loop e st data ctx (field :: rest) arr =
      serialize_phase2_loop e st data ctx rest arr2 := by
  simp [serialize_phase2_loop, hoff, hscope, hval, htype, hpack]

/-- serialize_to_binary unfolded on a successful run of both phases. -/
theorem serialize_to_binary_ok (e : Endian) (defs : List FieldDefinition)
    (data : Value) (st : HandlerState) (buf final : List Nat)
    (st1 : HandlerState)
    (h1 : serialize_phase1 e data defs [] st = (.ok (), buf, st1))
    (h2 : serialize_phase2_loop e st1 buf data st1.calculated_fields buf =
      .ok final) :
    serialize_to_binary e defs data st = (.ok final, st1) := by
  simp [serialize_to_binary, h1, serialize_phase2, h2]

/-- Phase 1 of spec scenario 3 with symbolic in-range field values. -/
theorem c9_phase1 (av bv : Nat) (ha : av < 256) (hb : bv < 65536) :
    serialize_phase1 .little (.vDict (c9m av bv)) crcSchema [] initState =
      (.ok (), [av, bv % 256, bv / 256, 0, 0, 0, 0], c9state) := by
  have hb2 : bv / 256 < 256 := by omega
  have p1 : packPrim .little (.intK 1 false) (.vInt av) = .ok [av] :=
    (packPrim_unsigned_le 1 av (by simpa using ha)).trans
      (by simp [natLE, Nat.mod_eq_of_lt ha])
  have p2 : packPrim .little (.intK 2 false) (.vInt bv) = .ok [bv % 256, bv / 256] :=
    (packPrim_unsigned_le 2 bv (by simpa using hb)).trans
      (by simp [natLE, Nat.mod_eq_of_lt hb2])
  have hserA : serialize_field 3 .little c9fA (.vInt av) (.vDict (c9m av bv)) =
      .ok [av] := by
    rw [serialize_field_prim 2 .little c9fA (.vInt av) _ (.intK 1 false) rfl]
    exact p1
  have hserB : serialize_field 3 .little c9fB (.vInt bv) (.vDict (c9m av bv)) =
      .ok [bv % 256, bv / 256] := by
    rw [serialize_field_prim 2 .little c9fB (.vInt bv) _ (.intK 2 false) rfl]
    exact p2
  have s1 := serialize_phase1_cons_plain .little (c9m av bv) c9fA
    [c9fB, c9crcField] [] initState (.vInt av) [av] rfl rfl (by decide) rfl hserA
  have s2 := serialize_phase1_cons_plain .little (c9m av bv) c9fB
    [c9crcField] [av] ⟨[], [("a", 0)], [("a", 1)]⟩ (.vInt bv)
    [bv % 256, bv / 256] rfl rfl (by decide) rfl hserB
  have s3 := serialize_phase1_cons_auto .little (c9m av bv) c9crcField
    [] [av, bv % 256, bv / 256] ⟨[], [("a", 0), ("b", 1)], [("a", 1), ("b", 2)]⟩
    (.vStr "auto") (.intK 4 false) [0, 0, 0, 0] rfl rfl rfl rfl rfl rfl
  show serialize_phase1 .little (.vDict (c9m av bv))
    (c9fA :: c9fB :: c9crcField :: []) [] initState = _
  rw [s1]
  show serialize_phase1 .little (.vDict (c9m av bv)) [c9fB, c9crcField] [av]
    ⟨[], [("a", 0)], [("a", 1)]⟩ = _
  rw [s2]
  show serialize_phase1 .little (.vDict (c9m av bv)) [c9crcField]
    [av, bv % 256, bv / 256] ⟨[], [("a", 0), ("b", 1)], [("a", 1), ("b", 2)]⟩ = _
  rw [s3]
  show serialize_phase1 .little (.vDict (c9m av bv)) []
    [av, bv % 256, bv / 256, 0, 0, 0, 0] c9state = _
  rw [serialize_phase1_nil]

/-- Phase 2 of spec scenario 3: the queued crc field is patched with the
crcmod-convention CRC of exactly the scope bytes [off(a), off(b)+size(b)) of
the unpatched phase-1 buffer. -/
theorem c9_phase2 (av bv : Nat) (ha : av < 256) (hb : bv < 65536) :
    serialize_phase2_loop .little c9state [av, bv % 256, bv / 256, 0, 0, 0, 0]
      (.vDict (c9m av bv)) [c9crcField] [av, bv % 256, bv / 256, 0, 0, 0, 0] =
      .ok ([av, bv % 256, bv / 256] ++
        natLE 4 (crc32_default [av, bv % 256, bv / 256])) := by
  have hb2 : bv / 256 < 256 := by omega
  have hcrc : crc32_default [av, bv % 256, bv / 256] < 2 ^ 32 := by
    apply crc32_default_lt
    intro b hbm
    simp only [List.mem_cons, List.not_mem_nil, or_false] at hbm
    rcases hbm with h | h | h <;> omega
  have p3 : packPrim .little (.intK 4 false)
      (.vInt (crc32_default [av, bv % 256, bv / 256])) =
      .ok (natLE 4 (crc32_default [av, bv % 256, bv / 256])) :=
    packPrim_unsigned_le 4 _ (by simpa using hcrc)
  have hscope : get_scope_data c9state.field_offsets c9state.field_sizes
      [av, bv % 256, bv / 256, 0, 0, 0, 0]
      (if c9crcField.function_scope = "" then "all_previous"
       else c9crcField.function_scope)
      c9crcField.function_scope_start c9crcField.function_scope_end 3 =
      .ok [av, bv % 256, bv / 256] := by
    simp [get_scope_data, c9state, c9crcField, optTruthy, assocGet, pySlice,
      FieldDefinition.function_scope, FieldDefinition.function_scope_start,
      FieldDefinition.function_scope_end]
  have hval : calculate_function_value c9state c9crcField
      [av, bv % 256, bv / 256] (.vDict (c9m av bv)) =
      .ok (crc32_default [av, bv % 256, bv / 256]) := by
    simp [calculate_function_value, c9crcField, paramInt, lookupKey,
      crcmodCrc_default_eq, FieldDefinition.function,
      FieldDefinition.function_parameters, FieldDefinition.name]
  have hpack : packIntoPrim .little (.intK 4 false)
      [av, bv % 256, bv / 256, 0, 0, 0, 0] 3
      (crc32_default [av, bv % 256, bv / 256]) =
      .ok ([av, bv % 256, bv / 256] ++
        natLE 4 (crc32_default [av, bv % 256, bv / 256])) := by
    rw [packIntoPrim, p3]
    simp [PrimKind.width, List.take, List.drop]
  rw [serialize_phase2_loop_cons .little c9state _ _ c9crcField [] _ 3
    [av, bv % 256, bv / 256] _ (.intK 4 false) _ rfl hscope hval rfl hpack]
  exact serialize_phase2_loop_nil _ _ _ _ _

/-- C9 (amended): for the field_range(a, b) crc32 schema of spec scenario 3,
for every in-range a and b, the crc field bytes are, in the configured byte
order, the crcmod-convention CRC (shift register starting at
initial_value XOR xor_out = 0 for the defaults) of exactly the phase-1 bytes
at offsets [off(a), off(b)+size(b)) = [0, 3) — not the standard reflected
CRC-32, whose register starts at 0xFFFFFFFF (see the counterexample). -/
theorem C9_amended (av bv : Nat) (ha : av < 256) (hb : bv < 65536) :
    (serialize_to_binary .little crcSchema (.vDict (c9m av bv)) initState).1 =
      .ok ([av, bv % 256, bv / 256] ++
        natLE 4 (crc32_default [av, bv % 256, bv / 256])) ∧
    pySlice [av, bv % 256, bv / 256, 0, 0, 0, 0] 0 3 = [av, bv % 256, bv / 256] := by
  refine ⟨?_, by simp [pySlice]⟩
  rw [serialize_to_binary_ok .little crcSchema (.vDict (c9m av bv)) initState
    [av, bv % 256, bv / 256, 0, 0, 0, 0] _ c9state (c9_phase1 av bv ha hb)
    (c9_phase2 av bv ha hb)]

/-- C9 witness: the amended theorem at the scenario values a = AA,
b = BBCC. -/
theorem C9_amended_witness :
    (serialize_to_binary .little crcSchema (.vDict (c9m 0xAA 0xBBCC)) initState).1 =
      .ok [0xAA, 0xCC, 0xBB, 15, 213, 236, 16] :=
  ((C9_amended 0xAA 0xBBCC (by decide) (by decide)).1).trans (by decide)

/-! Lemmas for the determinism claim: phase 1 never reads the handler state,
and with no top-level calculated fields it never extends the queue. -/

theorem serialize_phase1_res_irrel (e : Endian) (ctx : Value)
    (defs : List FieldDefinition) : ∀ (buf : List Nat) (st st' : HandlerState),
    (serialize_phase1 e ctx defs buf st).1 = (serialize_phase1 e ctx defs buf st').1 := by
  induction defs with
  | nil => intro buf st st'; rfl
  | cons f rest ih =>
    intro buf st st'
    simp only [serialize_phase1]
    split
    · rfl
    · exact ih buf st st'
    · split
      · split
        · rfl
        · split
          · rfl
          · split
            · split
              · rfl
              · split
                · rfl
                · exact ih _ _ _
            · split
              · rfl
              · exact ih _ _ _
      · rfl

theorem serialize_phase1_buf_irrel (e : Endian) (ctx : Value)
    (defs : List FieldDefinition) : ∀ (buf : List Nat) (st st' : HandlerState),
    (serialize_phase1 e ctx defs buf st).2.1 = (serialize_phase1 e ctx defs buf st').2.1 := by
  induction defs with
  | nil => intro buf st st'; rfl
  | cons f rest ih =>
    intro buf st st'
    simp only [serialize_phase1]
    split
    · rfl
    · exact ih buf st st'
    · split
      · split
        · rfl
        · split
          · rfl
          · split
            · split
              · rfl
              · split
                · rfl
                · exact ih _ _ _
            · split
              · rfl
              · exact ih _ _ _
      · rfl

theorem serialize_phase1_calc_preserved (e : Endian) (ctx : Value) :
    ∀ (defs : List FieldDefinition),
    defs.all (fun f => !funcTruthy f.function) = true →
    ∀ (buf : List Nat) (st : HandlerState),
    (serialize_phase1 e ctx defs buf st).2.2.calculated_fields =
      st.calculated_fields := by
  intro defs
  induction defs with
  | nil => intro _ buf st; rfl
  | cons f rest ih =>
    intro h buf st
    have hf : funcTruthy f.function = false := by
      simp [List.all_cons] at h
      simpa using h.1
    have hrest : rest.all (fun f => !funcTruthy f.function) = true := by
      simp [List.all_cons] at h ⊢
      exact h.2
    simp only [serialize_phase1]
    split
    · rfl
    · exact ih hrest buf st
    · split
      · split
        · rfl
        · split
          · rfl
          · split
            · simp_all
            · split
              · rfl
              · rw [ih hrest]
      · rfl


theorem serialize_to_binary_state (e : Endian) (defs : List FieldDefinition)
    (data : Value) (st : HandlerState) :
    (serialize_to_binary e defs data st).2 = (serialize_phase1 e data defs [] st).2.2 := by
  simp only [serialize_to_binary]
  split
  · next m fst st1 heq => simp [heq]
  · next val buf st1 heq =>
    split <;> simp [heq]

/-- C4 (amended): the bookkeeping is not transient — see the counterexample —
but when no top-level field of the schema declares a function, the
calculated-field queue stays empty, and encoding d2 returns the same bytes
(or the same error) whether or not d1 was encoded earlier on the same
instance. -/
theorem C4_amended (e : Endian) (defs : List FieldDefinition) (d1 d2 : Value)
    (h : defs.all (fun f => !funcTruthy f.function) = true) :
    (serialize_to_binary e defs d2 (serialize_to_binary e defs d1 initState).2).1 =
      (serialize_to_binary e defs d2 initState).1 := by
  have hcalc1 : (serialize_to_binary e defs d1 initState).2.calculated_fields = [] := by
    rw [serialize_to_binary_state, serialize_phase1_calc_preserved e d1 defs h]
    rfl
  generalize hS : (serialize_to_binary e defs d1 initState).2 = stX at hcalc1 ⊢
  have hres := serialize_phase1_res_irrel e d2 defs [] stX initState
  have hbuf := serialize_phase1_buf_irrel e d2 defs [] stX initState
  have hcalcL : (serialize_phase1 e d2 defs [] stX).2.2.calculated_fields = [] := by
    rw [serialize_phase1_calc_preserved e d2 defs h, hcalc1]
  have hcalcR : (serialize_phase1 e d2 defs [] initState).2.2.calculated_fields = [] :=
    serialize_phase1_calc_preserved e d2 defs h [] initState
  simp only [serialize_to_binary]
  conv_lhs => rw [show serialize_phase1 e d2 defs [] stX =
    ((serialize_phase1 e d2 defs [] stX).1, (serialize_phase1 e d2 defs [] stX).2.1,
      (serialize_phase1 e d2 defs [] stX).2.2) from rfl]
  conv_rhs => rw [show serialize_phase1 e d2 defs [] initState =
    ((serialize_phase1 e d2 defs [] initState).1,
      (serialize_phase1 e d2 defs [] initState).2.1,
      (serialize_phase1 e d2 defs [] initState).2.2) from rfl]
  rw [← hres, ← hbuf]
  cases hq : (serialize_phase1 e d2 defs [] stX).1 with
  | exn m => rfl
  | ok u =>
    simp only [serialize_phase2, hcalcL, hcalcR, serialize_phase2_loop_nil]

/-- C4 witness: the amended determinism theorem applied to the conditional
schema (which has no function fields) at two concrete documents. -/
theorem C4_amended_witness :
    (serialize_to_binary .little condSchemaCtx (.vDict [("count", .vInt 0)])
      (serialize_to_binary .little condSchemaCtx
        (.vDict [("count", .vInt 5), ("opt", .vInt 1234)]) initState).2).1 =
    (serialize_to_binary .little condSchemaCtx (.vDict [("count", .vInt 0)])
      initState).1 :=
  C4_amended .little condSchemaCtx
    (.vDict [("count", .vInt 5), ("opt", .vInt 1234)])
    (.vDict [("count", .vInt 0)]) (by decide)


theorem natLE_length (w v : Nat) : (natLE w v).length = w := by
  induction w generalizing v with
  | zero => rfl
  | succ w ih => simp [natLE, ih]

theorem natFromLE_natLE (w v : Nat) : natFromLE (natLE w v) = v % 2 ^ (8 * w) := by
  induction w generalizing v with
  | zero => simp [natLE, natFromLE, Nat.mod_one]
  | succ w ih =>
    have h2 : 2 ^ (8 * (w + 1)) = 256 * 2 ^ (8 * w) := by
      rw [show 8 * (w + 1) = 8 + 8 * w by ring, pow_add]
      norm_num
    rw [natLE, natFromLE, ih, h2, Nat.mod_mul]

theorem orderBytes_orderBytes (e : Endian) (bs : List Nat) :
    orderBytes e (orderBytes e bs) = bs := by
  cases e <;> simp [orderBytes]

theorem orderBytes_length (e : Endian) (bs : List Nat) :
    (orderBytes e bs).length = bs.length := by
  cases e <;> simp [orderBytes]

theorem primBytes_length (e : Endian) (w : Nat) (n : Int) :
    (primBytes e w n).length = w := by
  rw [primBytes, orderBytes_length, natLE_length]

theorem packPrim_fits (e : Endian) (w : Nat) (sgn : Bool) (n : Int)
    (h : intFits w sgn n) :
    packPrim e (.intK w sgn) (.vInt n) = .ok (primBytes e w n) := by
  cases sgn with
  | true =>
    obtain ⟨h1, h2⟩ := h
    simp [packPrim, asPackInt, primBytes, h1, h2]
  | false =>
    obtain ⟨h1, h2⟩ := h
    have hmod : n % (2 ^ (8 * w) : Int) = n := Int.emod_eq_of_lt h1 h2
    simp [packPrim, asPackInt, primBytes, h1, h2, hmod]

theorem unpackPrim_primBytes (e : Endian) (w : Nat) (sgn : Bool) (n : Int)
    (hw : 0 < w) (h : intFits w sgn n) :
    unpackPrim e (.intK w sgn) (primBytes e w n) = .ok (.vInt n) := by
  have hsplit : (2 : Nat) ^ (8 * w) = 2 * 2 ^ (8 * w - 1) := by
    conv_lhs => rw [show 8 * w = (8 * w - 1) + 1 by omega]
    rw [pow_succ]; ring
  have hcastM : ((2 ^ (8 * w) : Nat) : Int) = (2 ^ (8 * w) : Int) := by norm_cast
  have hcastH : ((2 ^ (8 * w - 1) : Nat) : Int) = (2 ^ (8 * w - 1) : Int) := by
    norm_cast
  have hMpos : (0 : Int) < (2 ^ (8 * w) : Int) := by positivity
  have hHpos : (0 : Int) < (2 ^ (8 * w - 1) : Int) := by positivity
  have hIsplit : (2 ^ (8 * w) : Int) = 2 * (2 ^ (8 * w - 1) : Int) := by
    rw [← hcastM, ← hcastH, hsplit]; push_cast; ring
  have hm0 : 0 ≤ n % (2 ^ (8 * w) : Int) := Int.emod_nonneg n (by omega)
  have hm1 : n % (2 ^ (8 * w) : Int) < (2 ^ (8 * w) : Int) :=
    Int.emod_lt_of_pos n hMpos
  have hmcast : (((n % (2 ^ (8 * w) : Int)).toNat : Int)) = n % (2 ^ (8 * w) : Int) :=
    Int.toNat_of_nonneg hm0
  have hmlt : (n % (2 ^ (8 * w) : Int)).toNat < 2 ^ (8 * w) := by
    rw [← Nat.cast_lt (α := Int), hmcast, hcastM]; exact hm1
  cases sgn with
  | false =>
    obtain ⟨h1, h2⟩ := h
    have hmod : n % (2 ^ (8 * w) : Int) = n := Int.emod_eq_of_lt h1 h2
    simp only [unpackPrim, primBytes, orderBytes_orderBytes, natFromLE_natLE,
      Nat.mod_eq_of_lt hmlt, Bool.false_eq_true, if_false, PyRes.ok.injEq,
      Value.vInt.injEq]
    rw [hmcast, hmod]
  | true =>
    obtain ⟨h1, h2⟩ := h
    by_cases hn : 0 ≤ n
    · have hmod : n % (2 ^ (8 * w) : Int) = n :=
        Int.emod_eq_of_lt hn (by omega)
      have hiflt : (n % (2 ^ (8 * w) : Int)).toNat < 2 ^ (8 * w - 1) := by
        rw [← Nat.cast_lt (α := Int), hmcast, hcastH, hmod]; exact h2
      have hun : unpackPrim e (.intK w true) (primBytes e w n) =
          .ok (.vInt (if (n % (2 ^ (8 * w) : Int)).toNat < 2 ^ (8 * w - 1) then
            (((n % (2 ^ (8 * w) : Int)).toNat : Nat) : Int)
          else (((n % (2 ^ (8 * w) : Int)).toNat : Nat) : Int) - 2 ^ (8 * w))) := by
        simp [unpackPrim, primBytes, orderBytes_orderBytes, natFromLE_natLE,
          Nat.mod_eq_of_lt hmlt]
      rw [hun, if_pos hiflt]
      simp only [PyRes.ok.injEq, Value.vInt.injEq]
      rw [hmcast, hmod]
    · push_neg at hn
      have hmod : n % (2 ^ (8 * w) : Int) = n + (2 ^ (8 * w) : Int) := by
        have e1 : (n + (2 ^ (8 * w) : Int) * 1) % (2 ^ (8 * w) : Int) =
            n % (2 ^ (8 * w) : Int) := Int.add_mul_emod_self_left n (2 ^ (8 * w)) 1
        rw [mul_one] at e1
        rw [← e1]
        exact Int.emod_eq_of_lt (by omega) (by omega)
      have hifge : ¬ (n % (2 ^ (8 * w) : Int)).toNat < 2 ^ (8 * w - 1) := by
        rw [← Nat.cast_lt (α := Int), hmcast, hcastH, hmod]; omega
      have hun : unpackPrim e (.intK w true) (primBytes e w n) =
          .ok (.vInt (if (n % (2 ^ (8 * w) : Int)).toNat < 2 ^ (8 * w - 1) then
            (((n % (2 ^ (8 * w) : Int)).toNat : Nat) : Int)
          else (((n % (2 ^ (8 * w) : Int)).toNat : Nat) : Int) - 2 ^ (8 * w))) := by
        simp [unpackPrim, primBytes, orderBytes_orderBytes, natFromLE_natLE,
          Nat.mod_eq_of_lt hmlt]
      rw [hun, if_neg hifge]
      simp only [PyRes.ok.injEq, Value.vInt.injEq]
      rw [hmcast, hmod]
      ring

theorem utf8DecodeF_encode (cs : List Char) :
    ∀ fuel, (cs.flatMap (fun c => utf8EncodeChar c.toNat)).length ≤ fuel →
      utf8DecodeF fuel (cs.flatMap (fun c => utf8EncodeChar c.toNat)) = cs := by
  induction cs with
  | nil => intro fuel _; cases fuel <;> rfl
  | cons c rest ih =>
    intro fuel hfuel
    rw [List.flatMap_cons] at hfuel ⊢
    have hs : c.toNat < 0xD800 ∨ 0xDFFF < c.toNat := by
      rcases c.valid with h | h
      · exact Or.inl h
      · exact Or.inr h.1
    have hmax : c.toNat < 0x110000 := by
      rcases c.valid with h | h
      · exact Nat.lt_trans h (by norm_num)
      · exact h.2
    by_cases h1 : c.toNat < 0x80
    · have henc : utf8EncodeChar c.toNat = [c.toNat] := by
        rw [utf8EncodeChar, if_pos h1]
      rw [henc] at hfuel ⊢
      simp only [List.length_append, List.length_cons, List.length_nil] at hfuel
      obtain ⟨F, rfl⟩ : ∃ F, fuel = F + 1 := ⟨fuel - 1, by omega⟩
      simp only [List.cons_append, List.nil_append, List.singleton_append, List.append_eq, utf8DecodeF]
      rw [if_pos h1, Char.ofNat_toNat, ih F (by omega)]
    · by_cases h2 : c.toNat < 0x800
      · have henc : utf8EncodeChar c.toNat =
            [0xC0 + c.toNat / 64, 0x80 + c.toNat % 64] := by
          rw [utf8EncodeChar, if_neg h1, if_pos h2]
        rw [henc] at hfuel ⊢
        simp only [List.length_append, List.length_cons, List.length_nil] at hfuel
        obtain ⟨F, rfl⟩ : ∃ F, fuel = F + 1 := ⟨fuel - 1, by omega⟩
        simp only [List.cons_append, List.nil_append, List.singleton_append, List.append_eq, utf8DecodeF]
        rw [if_neg (by omega), if_pos (⟨by omega, by omega⟩ :
          0xC2 ≤ 0xC0 + c.toNat / 64 ∧ 0xC0 + c.toNat / 64 ≤ 0xDF)]
        have hcont : isCont (0x80 + c.toNat % 64) = true := by
          simp only [isCont, Bool.and_eq_true, decide_eq_true_eq]
          omega
        rw [if_pos hcont]
        have harg : (0xC0 + c.toNat / 64 - 0xC0) * 64 + (0x80 + c.toNat % 64 - 0x80) =
            c.toNat := by omega
        rw [harg, Char.ofNat_toNat, ih F (by omega)]
      · by_cases h3 : c.toNat < 0x10000
        · have henc : utf8EncodeChar c.toNat =
              [0xE0 + c.toNat / 4096, 0x80 + c.toNat / 64 % 64, 0x80 + c.toNat % 64] := by
            rw [utf8EncodeChar, if_neg h1, if_neg h2, if_pos h3]
          rw [henc] at hfuel ⊢
          simp only [List.length_append, List.length_cons, List.length_nil] at hfuel
          obtain ⟨F, rfl⟩ : ∃ F, fuel = F + 1 := ⟨fuel - 1, by omega⟩
          simp only [List.cons_append, List.nil_append, List.singleton_append, List.append_eq, utf8DecodeF]
          rw [if_neg (by omega), if_neg (by omega :
              ¬ (0xC2 ≤ 0xE0 + c.toNat / 4096 ∧ 0xE0 + c.toNat / 4096 ≤ 0xDF)),
            if_pos (⟨by omega, by omega⟩ :
              0xE0 ≤ 0xE0 + c.toNat / 4096 ∧ 0xE0 + c.toNat / 4096 ≤ 0xEF)]
          have hlo : utf8Cont1Lo (0xE0 + c.toNat / 4096) ≤ 0x80 + c.toNat / 64 % 64 := by
            unfold utf8Cont1Lo
            split
            · omega
            · split <;> omega
          have hhi : 0x80 + c.toNat / 64 % 64 ≤ utf8Cont1Hi (0xE0 + c.toNat / 4096) := by
            unfold utf8Cont1Hi
            split
            · rcases hs with h | h <;> omega
            · split <;> omega
          rw [if_pos ⟨hlo, hhi⟩]
          have hcont : isCont (0x80 + c.toNat % 64) = true := by
            simp only [isCont, Bool.and_eq_true, decide_eq_true_eq]
            omega
          rw [if_pos hcont]
          have harg : (0xE0 + c.toNat / 4096 - 0xE0) * 4096 +
              (0x80 + c.toNat / 64 % 64 - 0x80) * 64 + (0x80 + c.toNat % 64 - 0x80) =
              c.toNat := by omega
          rw [harg, Char.ofNat_toNat, ih F (by omega)]
        · have henc : utf8EncodeChar c.toNat =
              [0xF0 + c.toNat / 262144, 0x80 + c.toNat / 4096 % 64,
               0x80 + c.toNat / 64 % 64, 0x80 + c.toNat % 64] := by
            rw [utf8EncodeChar, if_neg h1, if_neg h2, if_neg h3]
          rw [henc] at hfuel ⊢
          simp only [List.length_append, List.length_cons, List.length_nil] at hfuel
          obtain ⟨F, rfl⟩ : ∃ F, fuel = F + 1 := ⟨fuel - 1, by omega⟩
          simp only [List.cons_append, List.nil_append, List.singleton_append, List.append_eq, utf8DecodeF]
          rw [if_neg (by omega), if_neg (by omega :
              ¬ (0xC2 ≤ 0xF0 + c.toNat / 262144 ∧ 0xF0 + c.toNat / 262144 ≤ 0xDF)),
            if_neg (by omega :
              ¬ (0xE0 ≤ 0xF0 + c.toNat / 262144 ∧ 0xF0 + c.toNat / 262144 ≤ 0xEF)),
            if_pos (⟨by omega, by omega⟩ :
              0xF0 ≤ 0xF0 + c.toNat / 262144 ∧ 0xF0 + c.toNat / 262144 ≤ 0xF4)]
          have hlo : utf8Cont1Lo (0xF0 + c.toNat / 262144) ≤ 0x80 + c.toNat / 4096 % 64 := by
            unfold utf8Cont1Lo
            split
            · omega
            · split <;> omega
          have hhi : 0x80 + c.toNat / 4096 % 64 ≤ utf8Cont1Hi (0xF0 + c.toNat / 262144) := by
            unfold utf8Cont1Hi
            split
            · omega
            · split <;> omega
          rw [if_pos ⟨hlo, hhi⟩]
          have hcont2 : isCont (0x80 + c.toNat / 64 % 64) = true := by
            simp only [isCont, Bool.and_eq_true, decide_eq_true_eq]
            omega
          rw [if_pos hcont2]
          have hcont3 : isCont (0x80 + c.toNat % 64) = true := by
            simp only [isCont, Bool.and_eq_true, decide_eq_true_eq]
            omega
          rw [if_pos hcont3]
          have harg : (0xF0 + c.toNat / 262144 - 0xF0) * 262144 +
              (0x80 + c.toNat / 4096 % 64 - 0x80) * 4096 +
              (0x80 + c.toNat / 64 % 64 - 0x80) * 64 + (0x80 + c.toNat % 64 - 0x80) =
              c.toNat := by omega
          rw [harg, Char.ofNat_toNat, ih F (by omega)]

/-- Round trip of the text codec: utf-8 decode with errors=replace inverts
utf-8 encode. -/
theorem utf8_roundtrip (s : String) :
    utf8DecodeReplaceChars (utf8Encode s) = s.data := by
  rw [utf8DecodeReplaceChars, utf8Encode]
  exact utf8DecodeF_encode s.data _ le_rfl

theorem lookupKey_setKey_self (m : List (String × Value)) (k : String) (v : Value) :
    lookupKey (setKey m k v) k = some v := by
  induction m with
  | nil => simp [setKey, lookupKey]
  | cons p rest ih =>
    obtain ⟨k1, v1⟩ := p
    by_cases h : k1 = k
    · subst h; simp [setKey, lookupKey]
    · simp [setKey, lookupKey, h, ih]

theorem setKey_setKey (m : List (String × Value)) (k : String) (a b : Value) :
    setKey (setKey m k a) k b = setKey m k b := by
  induction m with
  | nil => simp [setKey]
  | cons p rest ih =>
    obtain ⟨k1, v1⟩ := p
    by_cases h : k1 = k
    · subst h; simp [setKey]
    · simp [setKey, h, ih]

theorem setKey_of_lookup_none (m : List (String × Value)) (k : String) (v : Value)
    (h : lookupKey m k = none) : setKey m k v = m ++ [(k, v)] := by
  induction m with
  | nil => simp [setKey]
  | cons p rest ih =>
    obtain ⟨k1, v1⟩ := p
    by_cases hk : k1 = k
    · simp [lookupKey, hk] at h
    · simp [lookupKey, hk] at h
      simp [setKey, hk, ih h]

theorem lookupKey_append_of_none (m m2 : List (String × Value)) (k : String)
    (h : lookupKey m k = none) : lookupKey (m ++ m2) k = lookupKey m2 k := by
  induction m with
  | nil => simp
  | cons p rest ih =>
    obtain ⟨k1, v1⟩ := p
    by_cases hk : k1 = k
    · simp [lookupKey, hk] at h
    · simp [lookupKey, hk] at h ⊢
      exact ih h

theorem lookupKey_eq_none_of_forall (m : List (String × Value)) (k : String)
    (h : ∀ p ∈ m, p.1 ≠ k) : lookupKey m k = none := by
  induction m with
  | nil => rfl
  | cons p rest ih =>
    obtain ⟨k1, v1⟩ := p
    have h1 : k1 ≠ k := h (k1, v1) (List.mem_cons_self _ _)
    simp only [lookupKey, if_neg h1]
    exact ih (fun q hq => h q (List.mem_cons_of_mem _ hq))

theorem splitOnDotAux_no_dot :
    ∀ (cs cur : List Char), '.' ∉ cs → splitOnDotAux cur cs = [cur.reverse ++ cs] := by
  intro cs
  induction cs with
  | nil => intro cur _; simp [splitOnDotAux]
  | cons c r ih =>
    intro cur h
    have hc : ¬ (c = '.') := fun he => h (he ▸ List.mem_cons_self _ _)
    rw [splitOnDotAux, if_neg hc, ih _ (fun hm => h (List.mem_cons_of_mem _ hm))]
    simp

theorem splitParts_eq_single (s : String) (h : '.' ∉ s.data) : splitParts s = [s] := by
  rw [splitParts, splitOnDotAux_no_dot _ _ h]
  rfl

theorem str_ne_empty_of_data (s : String) (h : s.data ≠ []) : s ≠ "" := by
  intro he; subst he; exact h rfl

theorem parseBracketPart_plain (cs : List Char) (h : ']' ∉ cs) :
    parseBracketPart cs = none := by
  rw [parseBracketPart, if_neg]
  intro hl
  exact h (List.mem_of_mem_getLast? hl)

theorem splitAtLBracket_append (nm : List Char) (after : List Char)
    (h : '[' ∉ nm) : splitAtLBracket (nm ++ '[' :: after) = some (nm, after) := by
  induction nm with
  | nil => simp [splitAtLBracket]
  | cons c r ih =>
    have hc : ¬ (c = '[') := fun he => h (he ▸ List.mem_cons_self _ _)
    simp only [List.cons_append, splitAtLBracket, if_neg hc, List.append_eq,
      ih (fun hm => h (List.mem_cons_of_mem _ hm))]

theorem parseBracketPart_index (nm idx : List Char) (h1 : '[' ∉ nm) :
    parseBracketPart (nm ++ '[' :: (idx ++ [']'])) = some (⟨nm⟩, idx) := by
  have hlast : (nm ++ '[' :: (idx ++ [']'])).getLast? = some ']' := by
    rw [show nm ++ '[' :: (idx ++ [']']) = (nm ++ '[' :: idx) ++ [']'] by simp]
    exact List.getLast?_concat _
  rw [parseBracketPart, if_pos hlast, splitAtLBracket_append nm _ h1]
  simp [List.dropLast_concat]

theorem natDigitsRevF_digits (f : Nat) :
    ∀ n c, c ∈ natDigitsRevF f n → isDigitChar c = true := by
  induction f with
  | zero => intro n c hc; simp [natDigitsRevF] at hc
  | succ f ih =>
    intro n c hc
    rw [natDigitsRevF] at hc
    split at hc
    · simp at hc
    · rcases List.mem_cons.mp hc with h | h
      · subst h
        have hr : n % 10 < 10 := Nat.mod_lt _ (by norm_num)
        set r := n % 10 with hrdef
        interval_cases r <;> decide
      · exact ih _ c h

theorem isDigitChar_facts (c : Char) (h : isDigitChar c = true) :
    c ≠ '.' ∧ c ≠ '[' ∧ c ≠ ']' ∧ c ≠ '-' ∧ c ≠ '+' ∧ isPySpace c = false := by
  simp only [isDigitChar, Bool.and_eq_true, decide_eq_true_eq] at h
  refine ⟨?_, ?_, ?_, ?_, ?_, ?_⟩
  · intro he; subst he; revert h; decide
  · intro he; subst he; revert h; decide
  · intro he; subst he; revert h; decide
  · intro he; subst he; revert h; decide
  · intro he; subst he; revert h; decide
  · cases hps : isPySpace c
    · rfl
    · exfalso
      simp only [isPySpace, Bool.or_eq_true, beq_iff_eq] at hps
      rcases hps with ((((h1 | h1) | h1) | h1) | h1) | h1 <;>
        (subst h1; revert h; decide)

theorem natRepr_digits (n : Nat) :
    ∀ c ∈ (natRepr n).data, isDigitChar c = true := by
  rw [natRepr]
  split
  · intro c hc
    simp only [show ("0" : String).data = ['0'] from rfl, List.mem_singleton] at hc
    subst hc; decide
  · intro c hc
    exact natDigitsRevF_digits n n c (List.mem_reverse.mp hc)

theorem natRepr_ne_nil (n : Nat) : (natRepr n).data ≠ [] := by
  rw [natRepr]
  split
  · simp [show ("0" : String).data = ['0'] from rfl]
  · rename_i h
    obtain ⟨m, rfl⟩ : ∃ m, n = m + 1 := ⟨n - 1, by omega⟩
    rw [natDigitsRev, natDigitsRevF]
    simp

theorem digitsValAux_append (acc : Nat) (xs ys : List Char) :
    digitsValAux acc (xs ++ ys) = digitsValAux (digitsValAux acc xs) ys := by
  induction xs generalizing acc with
  | nil => rfl
  | cons a t ih =>
    show digitsValAux (acc * 10 + (a.toNat - 48)) (t ++ ys) =
      digitsValAux (digitsValAux (acc * 10 + (a.toNat - 48)) t) ys
    exact ih _

theorem digitsVal_natDigitsRevF (f : Nat) :
    ∀ n, n ≤ f → digitsValAux 0 (natDigitsRevF f n).reverse = n := by
  induction f with
  | zero =>
    intro n h
    interval_cases n
    rfl
  | succ f ih =>
    intro n h
    rw [natDigitsRevF]
    split
    · rename_i h0; subst h0; rfl
    · rename_i h0
      rw [List.reverse_cons, digitsValAux_append, ih (n / 10) (by omega)]
      have hr : n % 10 < 10 := Nat.mod_lt _ (by norm_num)
      have htn : (Char.ofNat (48 + n % 10)).toNat = 48 + n % 10 := by
        set r := n % 10 with hrdef
        interval_cases r <;> decide
      show n / 10 * 10 + ((Char.ofNat (48 + n % 10)).toNat - 48) = n
      rw [htn]
      omega

theorem pyIntChars_digits (cs : List Char) (hne : cs ≠ [])
    (hd : ∀ c ∈ cs, isDigitChar c = true) :
    pyIntChars cs = some ((digitsValAux 0 cs : Nat) : Int) := by
  have hdw : ∀ (l : List Char), (∀ c ∈ l, isDigitChar c = true) →
      l.dropWhile isPySpace = l := by
    intro l hl
    cases l with
    | nil => rfl
    | cons a t =>
      rw [List.dropWhile_cons_of_neg]
      rw [(isDigitChar_facts a (hl a (List.mem_cons_self _ _))).2.2.2.2.2]
      simp
  have hstrip : stripChars cs = cs := by
    rw [stripChars, hdw cs hd,
      hdw _ (fun c hc => hd c (List.mem_reverse.mp hc)), List.reverse_reverse]
  rw [pyIntChars]
  simp only [hstrip]
  split
  · exfalso
    have := hd '-' (List.mem_cons_self _ _)
    revert this; decide
  · exfalso
    have := hd '+' (List.mem_cons_self _ _)
    revert this; decide
  · rw [if_pos ⟨hne, by rw [List.all_eq_true]; exact hd⟩]

theorem pyIntChars_natRepr (i : Nat) :
    pyIntChars (natRepr i).data = some (i : Int) := by
  rw [pyIntChars_digits _ (natRepr_ne_nil i) (natRepr_digits i)]
  congr 1
  have hval : digitsValAux 0 (natRepr i).data = i := by
    rw [natRepr]
    split
    · rename_i h0; subst h0; rfl
    · exact digitsVal_natDigitsRevF i i le_rfl
  rw [hval]

theorem string_empty_append (s : String) : "" ++ s = s := rfl

theorem get_nested_value_empty (ctx : Value) : get_nested_value ctx "" = .ok ctx := rfl

theorem set_append_length (acc : List Value) (x v : Value) :
    (acc ++ [x]).set acc.length v = acc ++ [v] := by
  induction acc with
  | nil => rfl
  | cons a t ih => simp [List.set, ih]

theorem listSetPy_append_last (acc : List Value) (x v : Value) :
    listSetPy (acc ++ [x]) (acc.length : Int) v = .ok (acc ++ [v]) := by
  have h0 : ¬ ((acc.length : Int) < 0) := by omega
  simp only [listSetPy, if_neg h0]
  rw [if_pos]
  · rw [Int.toNat_natCast, set_append_length]
  · refine ⟨by omega, ?_⟩
    simp only [List.length_append, List.length_cons, List.length_nil]
    omega

theorem write_nested_plain (cm : List (String × Value)) (nm : String) (v : Value)
    (hdot : '.' ∉ nm.data) (hrb : ']' ∉ nm.data) (hne : nm ≠ "") :
    write_nested_value (.vDict cm) nm v = .ok (.vDict (setKey cm nm v)) := by
  rw [write_nested_value, splitParts_eq_single nm hdot]
  have hf : ([nm].filter fun p => p ≠ "") = [nm] := by simp [hne]
  rw [hf]
  simp only [writeNestedParts, parseBracketPart_plain nm.data hrb]
  rfl

theorem parseBracketPart_name_index (nm : String) (idx : List Char)
    (hlb : '[' ∉ nm.data) :
    parseBracketPart (nm.data ++ '[' :: (idx ++ [']'])) = some (nm, idx) :=
  parseBracketPart_index nm.data idx hlb

theorem write_nested_indexed (cm : List (String × Value)) (nm : String)
    (acc : List Value) (v : Value)
    (hdot : '.' ∉ nm.data) (hlb : '[' ∉ nm.data)
    (harr : (match lookupKey cm nm with
             | some (.vList xs) => xs
             | _ => ([] : List Value)) = acc) :
    write_nested_value (.vDict cm) (nm ++ "[" ++ natRepr acc.length ++ "]") v =
      .ok (.vDict (setKey cm nm (.vList (acc ++ [v])))) := by
  have hdata : (nm ++ "[" ++ natRepr acc.length ++ "]").data =
      nm.data ++ ('[' :: ((natRepr acc.length).data ++ [']'])) := by
    simp [String.data_append]
  have hnodot : '.' ∉ (nm ++ "[" ++ natRepr acc.length ++ "]").data := by
    rw [hdata]
    intro hm
    rcases List.mem_append.mp hm with h | h
    · exact hdot h
    · rcases List.mem_cons.mp h with h | h
      · exact absurd h (by decide)
      · rcases List.mem_append.mp h with h | h
        · have := natRepr_digits acc.length '.' h
          revert this; decide
        · rw [List.mem_singleton] at h
          exact absurd h (by decide)
  have hne : (nm ++ "[" ++ natRepr acc.length ++ "]") ≠ "" := by
    apply str_ne_empty_of_data
    rw [hdata]
    simp
  rw [write_nested_value, splitParts_eq_single _ hnodot]
  have hf : ([nm ++ "[" ++ natRepr acc.length ++ "]"].filter fun p => p ≠ "") =
      [nm ++ "[" ++ natRepr acc.length ++ "]"] := by simp [hne]
  rw [hf]
  simp only [writeNestedParts, hdata, parseBracketPart_name_index nm _ hlb]
  rw [harr, pyIntChars_natRepr]
  simp only [List.isEmpty_nil, if_true]
  have hcnt : (((acc.length : Nat) : Int) + 1 - ((acc.length : Nat) : Int)).toNat = 1 := by
    omega
  rw [hcnt, List.replicate_one, listSetPy_append_last]

theorem ljustZero_length (bs : List Nat) (n : Nat) (h : bs.length ≤ n) :
    (ljustZero bs n).length = n := by
  simp only [ljustZero, List.length_append, List.length_replicate]
  omega

theorem rstrip_ljust (bs : List Nat) (n : Nat) (h : bs.getLast? ≠ some 0) :
    rstripZeros (ljustZero bs n) = bs := by
  have hrep : ∀ (k : Nat) (l : List Nat),
      List.dropWhile (fun b => b == 0) (List.replicate k 0 ++ l) =
        List.dropWhile (fun b => b == 0) l := by
    intro k
    induction k with
    | zero => intro l; rfl
    | succ k ih =>
      intro l
      rw [List.replicate_succ, List.cons_append, List.dropWhile_cons_of_pos (by decide)]
      exact ih l
  rw [ljustZero, rstripZeros, List.reverse_append, List.reverse_replicate, hrep]
  cases hbs : bs.reverse with
  | nil =>
    rw [List.reverse_eq_nil_iff] at hbs
    subst hbs
    rfl
  | cons x t =>
    have hx : x ≠ 0 := by
      intro he
      apply h
      rw [← List.head?_reverse, hbs, he]
      rfl
    rw [List.dropWhile_cons_of_neg (by simp [hx]), ← hbs, List.reverse_reverse]

theorem pyTake_of_le (bs : List Nat) (k : Nat) (h : bs.length ≤ k) :
    pyTake bs (k : Int) = bs := by
  rw [pyTake, if_neg (by omega), Int.toNat_natCast]
  exact List.take_of_length_le h

theorem read_exact (pre mid post : List Nat) (n : Nat) (h : mid.length = n) :
    Stream.read ⟨pre ++ (mid ++ post), pre.length⟩ n =
      (mid, ⟨pre ++ (mid ++ post), pre.length + n⟩) := by
  have hdrop : (pre ++ (mid ++ post)).drop pre.length = mid ++ post :=
    List.drop_left pre (mid ++ post)
  simp only [Stream.read, hdrop]
  subst h
  rw [List.take_left]

theorem pyDecodeReplace_utf8 (s : String) :
    pyDecodeReplace "utf-8" (utf8Encode s) = .ok s := by
  rw [pyDecodeReplace, if_pos rfl, utf8_roundtrip]

theorem deserialize_field_prim_ok (e : Endian) (f : FieldDefinition) (k : PrimKind)
    (v : Value) (bs : List Nat)
    (hty : typeMap f.type = some k)
    (hname : f.name ≠ "#")
    (hdot : '.' ∉ f.name.data) (hrb : ']' ∉ f.name.data) (hnm : f.name ≠ "")
    (hlen : bs.length = k.width)
    (hunp : unpackPrim e k bs = .ok v)
    (fuel : Nat) (cm : List (String × Value)) (pre post : List Nat) :
    deserialize_field (fuel + 1) e f "" ⟨pre ++ (bs ++ post), pre.length⟩ (.vDict cm) =
      (.ok (), ⟨pre ++ (bs ++ post), pre.length + k.width⟩,
        .vDict (setKey cm f.name v)) := by
  obtain ⟨nm, ty, sz, enc, lf, cf, cond, fn, fsc, fss, fse, fp⟩ := f
  simp only [FieldDefinition.type] at hty
  simp only [FieldDefinition.name] at hname hdot hrb hnm ⊢
  simp only [deserialize_field, hty]
  rw [read_exact pre bs post k.width hlen]
  rw [if_neg (by simp [hlen])]
  simp only [hunp, if_pos hname, string_empty_append,
    write_nested_plain cm nm v hdot hrb hnm]

theorem deserialize_field_elem_ok (e : Endian) (f : FieldDefinition) (k : PrimKind)
    (v : Value) (bs : List Nat) (nm : String) (acc : List Value) (i : Nat)
    (hidx : acc.length = i)
    (hty : typeMap f.type = some k)
    (hname : f.name = "#")
    (hdot : '.' ∉ nm.data) (hlb : '[' ∉ nm.data)
    (hlen : bs.length = k.width)
    (hunp : unpackPrim e k bs = .ok v)
    (fuel : Nat) (cm : List (String × Value)) (pre post : List Nat)
    (harr : (match lookupKey cm nm with
             | some (.vList xs) => xs
             | _ => ([] : List Value)) = acc) :
    deserialize_field (fuel + 1) e f (nm ++ "[" ++ natRepr i ++ "]")
        ⟨pre ++ (bs ++ post), pre.length⟩ (.vDict cm) =
      (.ok (), ⟨pre ++ (bs ++ post), pre.length + k.width⟩,
        .vDict (setKey cm nm (.vList (acc ++ [v])))) := by
  subst hidx
  obtain ⟨fnm, ty, sz, enc, lf, cf, cond, fn, fsc, fss, fse, fp⟩ := f
  simp only [FieldDefinition.type] at hty
  simp only [FieldDefinition.name] at hname
  subst hname
  simp only [deserialize_field, hty]
  rw [read_exact pre bs post k.width hlen]
  rw [if_neg (by simp [hlen])]
  simp only [hunp, if_neg (by simp : ¬ ("#" : String) ≠ "#"),
    write_nested_indexed cm nm acc v hdot hlb harr]

theorem deserialize_field_string_fixed_ok (e : Endian) (f : FieldDefinition)
    (kn : Nat) (str : String)
    (hty : f.type = "string") (henc : f.encoding = "utf-8")
    (hsz : f.size = some (kn : Int)) (hk : 0 < kn)
    (hdot : '.' ∉ f.name.data) (hrb : ']' ∉ f.name.data) (hnm : f.name ≠ "")
    (hfit : (utf8Encode str).length ≤ kn)
    (hnt : (utf8Encode str).getLast? ≠ some 0)
    (fuel : Nat) (cm : List (String × Value)) (pre post : List Nat) :
    deserialize_field (fuel + 1) e f ""
        ⟨pre ++ (ljustZero (utf8Encode str) kn ++ post), pre.length⟩ (.vDict cm) =
      (.ok (), ⟨pre ++ (ljustZero (utf8Encode str) kn ++ post), pre.length + kn⟩,
        .vDict (setKey cm f.name (.vStr str))) := by
  obtain ⟨nm, ty, sz, enc, lf, cf, cond, fn, fsc, fss, fse, fp⟩ := f
  simp only [FieldDefinition.type] at hty
  simp only [FieldDefinition.encoding] at henc
  simp only [FieldDefinition.size] at hsz
  simp only [FieldDefinition.name] at hdot hrb hnm ⊢
  subst hty; subst henc; subst hsz
  simp only [deserialize_field, show typeMap "string" = none from rfl]
  rw [if_neg (by decide : ¬ ("string" : String) = "int24"),
    if_neg (by decide : ¬ ("string" : String) = "uint24"),
    if_pos (trivial : True)]
  rw [if_pos (by omega : ((kn : Nat) : Int) ≠ 0)]
  rw [deserialize_fixed_string, Stream.readInt,
    if_neg (by omega : ¬ ((kn : Nat) : Int) < 0), Int.toNat_natCast]
  simp only [read_exact pre _ post kn (ljustZero_length _ kn hfit)]
  rw [if_neg (by
    rw [ljustZero_length _ kn hfit]
    omega)]
  rw [rstrip_ljust _ kn hnt]
  simp only [pyDecodeReplace_utf8, string_empty_append,
    write_nested_plain cm nm (.vStr str) hdot hrb hnm]

theorem deserialize_field_string_var_ok (e : Endian) (f : FieldDefinition)
    (str : String)
    (hty : f.type = "string") (henc : f.encoding = "utf-8")
    (hsz : f.size = none)
    (hdot : '.' ∉ f.name.data) (hrb : ']' ∉ f.name.data) (hnm : f.name ≠ "")
    (hlen32 : (utf8Encode str).length < 2 ^ 32)
    (fuel : Nat) (cm : List (String × Value)) (pre post : List Nat) :
    deserialize_field (fuel + 1) e f ""
        ⟨pre ++ ((primBytes e 4 ((utf8Encode str).length : Int) ++ utf8Encode str)
          ++ post), pre.length⟩ (.vDict cm) =
      (.ok (), ⟨pre ++ ((primBytes e 4 ((utf8Encode str).length : Int) ++ utf8Encode str)
          ++ post), pre.length + (4 + (utf8Encode str).length)⟩,
        .vDict (setKey cm f.name (.vStr str))) := by
  obtain ⟨nm, ty, sz, enc, lf, cf, cond, fn, fsc, fss, fse, fp⟩ := f
  simp only [FieldDefinition.type] at hty
  simp only [FieldDefinition.encoding] at henc
  simp only [FieldDefinition.size] at hsz
  simp only [FieldDefinition.name] at hdot hrb hnm ⊢
  subst hty; subst henc; subst hsz
  simp only [deserialize_field, show typeMap "string" = none from rfl]
  rw [if_neg (by decide : ¬ ("string" : String) = "int24"),
    if_neg (by decide : ¬ ("string" : String) = "uint24"),
    if_pos (trivial : True)]
  rw [deserialize_var_string]
  rw [show pre ++ ((primBytes e 4 ((utf8Encode str).length : Int) ++ utf8Encode str)
        ++ post) =
      pre ++ (primBytes e 4 ((utf8Encode str).length : Int) ++ (utf8Encode str ++ post))
    by simp [List.append_assoc]]
  simp only [read_exact pre _ _ 4 (primBytes_length e 4 _)]
  rw [if_neg (by simp [primBytes_length])]
  have hlenval : natFromLE (orderBytes e
      (primBytes e 4 ((utf8Encode str).length : Int))) = (utf8Encode str).length := by
    rw [primBytes, orderBytes_orderBytes, natFromLE_natLE]
    have h1 : (((utf8Encode str).length : Int) % (2 ^ (8 * 4) : Int)) =
        ((utf8Encode str).length : Int) := by
      apply Int.emod_eq_of_lt (by omega)
      have : ((2 : Int) ^ (8 * 4)) = ((2 ^ 32 : Nat) : Int) := by norm_num
      omega
    rw [h1, Int.toNat_natCast]
    have : (8 : Nat) * 4 = 32 := by norm_num
    rw [this]
    exact Nat.mod_eq_of_lt hlen32
  rw [hlenval]
  rw [show pre ++ (primBytes e 4 ((utf8Encode str).length : Int) ++ (utf8Encode str ++ post)) =
      (pre ++ primBytes e 4 ((utf8Encode str).length : Int)) ++ (utf8Encode str ++ post)
    by simp [List.append_assoc]]
  rw [show pre.length + 4 =
      (pre ++ primBytes e 4 ((utf8Encode str).length : Int)).length by
    simp [primBytes_length]]
  simp only [read_exact _ _ post (utf8Encode str).length rfl]
  rw [if_neg (by omega)]
  simp only [pyDecodeReplace_utf8, string_empty_append,
    write_nested_plain cm nm (.vStr str) hdot hrb hnm]
  rw [show (pre ++ primBytes e 4 ((utf8Encode str).length : Int)) ++ (utf8Encode str ++ post) =
      pre ++ ((primBytes e 4 ((utf8Encode str).length : Int) ++ utf8Encode str) ++ post)
    by simp [List.append_assoc]]
  rw [show (pre ++ primBytes e 4 ((utf8Encode str).length : Int)).length +
      (utf8Encode str).length = pre.length + (4 + (utf8Encode str).length) by
    simp [primBytes_length]; omega]

theorem deserialize_array_elems_cons (fuel : Nat) (e : Endian)
    (ef : FieldDefinition) (basePath : String) (i count : Nat) (s : Stream)
    (ctx : Value) :
    deserialize_array_elems (fuel + 1) e ef basePath i (count + 1) s ctx =
      match deserialize_field fuel e ef (basePath ++ "[" ++ natRepr i ++ "]") s ctx with
      | (.ok _, s2, ctx2) =>
        deserialize_array_elems fuel e ef basePath (i + 1) count s2 ctx2
      | (.exn m, s2, ctx2) => (.exn m, s2, ctx2) := rfl

theorem deserialize_array_elems_go (e : Endian) (ef : FieldDefinition)
    (sgn : Bool) (w : Nat) (nm : String)
    (hty : typeMap ef.type = some (.intK w sgn))
    (hname : ef.name = "#") (hw : 0 < w)
    (hdot : '.' ∉ nm.data) (hlb : '[' ∉ nm.data) :
    ∀ (ns : List Int) (acc : List Value) (cm : List (String × Value))
      (fuel : Nat) (pre post : List Nat),
      (∀ x ∈ ns, intFits w sgn x) →
      0 < acc.length →
      ns.length + 1 ≤ fuel →
      deserialize_array_elems fuel e ef nm acc.length ns.length
          ⟨pre ++ (ns.flatMap (fun n => primBytes e w n) ++ post), pre.length⟩
          (.vDict (setKey cm nm (.vList acc))) =
        (.ok (), ⟨pre ++ (ns.flatMap (fun n => primBytes e w n) ++ post),
            pre.length + (ns.flatMap (fun n => primBytes e w n)).length⟩,
          .vDict (setKey cm nm (.vList (acc ++ ns.map .vInt)))) := by
  intro ns
  induction ns with
  | nil =>
    intro acc cm fuel pre post hfit hacc hfuel
    obtain ⟨F, rfl⟩ : ∃ F, fuel = F + 1 := ⟨fuel - 1, by omega⟩
    simp [deserialize_array_elems]
  | cons x rest ih =>
    intro acc cm fuel pre post hfit hacc hfuel
    obtain ⟨F, rfl⟩ : ∃ F, fuel = F + 1 := ⟨fuel - 1, by omega⟩
    obtain ⟨F2, rfl⟩ : ∃ F2, F = F2 + 1 := ⟨F - 1, by
      simp only [List.length_cons] at hfuel; omega⟩
    simp only [List.length_cons, List.flatMap_cons, deserialize_array_elems_cons]
    rw [show pre ++ ((primBytes e w x ++ rest.flatMap (fun n => primBytes e w n)) ++ post) =
        pre ++ (primBytes e w x ++ (rest.flatMap (fun n => primBytes e w n) ++ post))
      by simp [List.append_assoc]]
    simp only [deserialize_field_elem_ok e ef (.intK w sgn) (.vInt x)
      (primBytes e w x) nm acc acc.length rfl hty hname hdot hlb
      (primBytes_length e w x)
      (unpackPrim_primBytes e w sgn x hw (hfit x (List.mem_cons_self _ _)))
      F2 (setKey cm nm (.vList acc)) pre
      (rest.flatMap (fun n => primBytes e w n) ++ post)
      (by rw [lookupKey_setKey_self])]
    rw [setKey_setKey]
    have hstep := ih (acc ++ [.vInt x]) cm (F2 + 1) (pre ++ primBytes e w x) post
      (fun y hy => hfit y (List.mem_cons_of_mem _ hy))
      (by simp) (by simp only [List.length_cons] at hfuel; omega)
    rw [show (acc ++ [Value.vInt x]).length = acc.length + 1 by simp] at hstep
    rw [show (pre ++ primBytes e w x) ++ (rest.flatMap (fun n => primBytes e w n) ++ post) =
        pre ++ (primBytes e w x ++ (rest.flatMap (fun n => primBytes e w n) ++ post))
      by simp [List.append_assoc]] at hstep
    rw [show (pre ++ primBytes e w x).length = pre.length + w by
      simp [primBytes_length]] at hstep
    rw [show ((.intK w sgn : PrimKind)).width = w from rfl]
    rw [hstep]
    rw [show acc ++ [Value.vInt x] ++ rest.map Value.vInt =
        acc ++ (Value.vInt x :: rest.map Value.vInt) by simp]
    rw [show pre.length + w + (rest.flatMap (fun n => primBytes e w n)).length =
        pre.length + (primBytes e w x ++ rest.flatMap (fun n => primBytes e w n)).length
      by simp [primBytes_length]; omega]
    simp only [List.map_cons]

theorem deserialize_field_array_ok (e : Endian) (f ef : FieldDefinition)
    (sgn : Bool) (w : Nat) (ns : List Int)
    (hty : f.type = "array") (hlf : f.length_field = none)
    (hsz : f.size = some ((ns.length : Nat) : Int)) (hk : 0 < ns.length)
    (hfields : f.fields = [ef])
    (hety : typeMap ef.type = some (.intK w sgn)) (hename : ef.name = "#")
    (hw : 0 < w)
    (hdot : '.' ∉ f.name.data) (hlb : '[' ∉ f.name.data)
    (hfit : ∀ x ∈ ns, intFits w sgn x)
    (fuel : Nat) (hfuel : ns.length + 1 ≤ fuel)
    (cm : List (String × Value)) (hnone : lookupKey cm f.name = none)
    (pre post : List Nat) :
    deserialize_field (fuel + 1) e f ""
        ⟨pre ++ (ns.flatMap (fun n => primBytes e w n) ++ post), pre.length⟩
        (.vDict cm) =
      (.ok (), ⟨pre ++ (ns.flatMap (fun n => primBytes e w n) ++ post),
          pre.length + (ns.flatMap (fun n => primBytes e w n)).length⟩,
        .vDict (setKey cm f.name (.vList (ns.map .vInt)))) := by
  obtain ⟨nm, ty, sz, enc, lf, cf, cond, fn, fsc, fss, fse, fp⟩ := f
  simp only [FieldDefinition.type] at hty
  simp only [FieldDefinition.length_field] at hlf
  simp only [FieldDefinition.size] at hsz
  simp only [FieldDefinition.fields] at hfields
  simp only [FieldDefinition.name] at hdot hlb hnone ⊢
  subst hty; subst hlf; subst hsz; subst hfields
  simp only [deserialize_field, show typeMap "array" = none from rfl]
  rw [if_neg (by decide : ¬ ("array" : String) = "int24"),
    if_neg (by decide : ¬ ("array" : String) = "uint24"),
    if_neg (by decide : ¬ ("array" : String) = "string"),
    if_pos (trivial : True)]
  simp only [if_pos (by omega : ((ns.length : Nat) : Int) ≠ 0)]
  rw [if_pos (by omega : (0 : Int) ≤ ((ns.length : Nat) : Int))]
  rw [Int.toNat_natCast, string_empty_append]
  obtain ⟨x, rest, rfl⟩ : ∃ x rest, ns = x :: rest := by
    cases ns with
    | nil => simp at hk
    | cons x rest => exact ⟨x, rest, rfl⟩
  obtain ⟨F, rfl⟩ : ∃ F, fuel = F + 1 := ⟨fuel - 1, by
    simp only [List.length_cons] at hfuel; omega⟩
  obtain ⟨F2, rfl⟩ : ∃ F2, F = F2 + 1 := ⟨F - 1, by
    simp only [List.length_cons] at hfuel; omega⟩
  rw [show (x :: rest).length = rest.length + 1 from rfl]
  rw [deserialize_array_elems_cons]
  simp only [List.flatMap_cons]
  rw [show pre ++ ((primBytes e w x ++ rest.flatMap (fun n => primBytes e w n)) ++ post) =
      pre ++ (primBytes e w x ++ (rest.flatMap (fun n => primBytes e w n) ++ post))
    by simp [List.append_assoc]]
  simp only [deserialize_field_elem_ok e ef (.intK w sgn) (.vInt x)
    (primBytes e w x) nm ([] : List Value) 0 rfl hety hename hdot hlb
    (primBytes_length e w x)
    (unpackPrim_primBytes e w sgn x hw (hfit x (List.mem_cons_self _ _)))
    F2 cm pre (rest.flatMap (fun n => primBytes e w n) ++ post)
    (by rw [hnone])]
  simp only [List.nil_append]
  have hgo := deserialize_array_elems_go e ef sgn w nm hety hename hw hdot hlb
    rest [Value.vInt x] cm (F2 + 1) (pre ++ primBytes e w x) post
    (fun y hy => hfit y (List.mem_cons_of_mem _ hy))
    (by simp) (by simp only [List.length_cons] at hfuel; omega)
  rw [show ([Value.vInt x] : List Value).length = 0 + 1 from rfl] at hgo
  rw [show (pre ++ primBytes e w x) ++ (rest.flatMap (fun n => primBytes e w n) ++ post) =
      pre ++ (primBytes e w x ++ (rest.flatMap (fun n => primBytes e w n) ++ post))
    by simp [List.append_assoc]] at hgo
  rw [show (pre ++ primBytes e w x).length = pre.length + w by
    simp [primBytes_length]] at hgo
  rw [show ((.intK w sgn : PrimKind)).width = w from rfl]
  rw [hgo]
  rw [show ([Value.vInt x] : List Value) ++ rest.map Value.vInt =
      (x :: rest).map Value.vInt by simp]
  rw [show pre.length + w + (rest.flatMap (fun n => primBytes e w n)).length =
      pre.length + (primBytes e w x ++ rest.flatMap (fun n => primBytes e w n)).length
    by simp [primBytes_length]; omega]

theorem vWeightL_ge (xs : List Value) : xs.length ≤ vWeightL xs := by
  induction xs with
  | nil => simp [vWeightL]
  | cons x t ih => simp only [vWeightL, List.length_cons]; omega

theorem fWeightL_ge (fs : List FieldDefinition) : fs.length ≤ fWeightL fs := by
  induction fs with
  | nil => simp [fWeightL]
  | cons f t ih => simp only [fWeightL, List.length_cons]; omega

theorem serialize_field_string_fixed (fuel : Nat) (e : Endian)
    (f : FieldDefinition) (kn : Nat) (str : String) (ctx : Value)
    (hty : f.type = "string") (henc : f.encoding = "utf-8")
    (hsz : f.size = some ((kn : Nat) : Int)) (hk : 0 < kn)
    (hfit : (utf8Encode str).length ≤ kn) :
    serialize_field (fuel + 1) e f (.vStr str) ctx =
      .ok (ljustZero (utf8Encode str) kn) := by
  obtain ⟨nm, ty, sz, enc, lf, cf, cond, fn, fsc, fss, fse, fp⟩ := f
  simp only [FieldDefinition.type] at hty
  simp only [FieldDefinition.encoding] at henc
  simp only [FieldDefinition.size] at hsz
  subst hty; subst henc; subst hsz
  simp only [serialize_field, show typeMap "string" = none from rfl]
  rw [if_neg (by decide : ¬ ("string" : String) = "int24"),
    if_pos (trivial : True)]
  simp only [pyEncode, if_pos (rfl : ("utf-8" : String) = "utf-8")]
  rw [if_pos (trivial : True)]
  simp only [if_pos (by omega : ((kn : Nat) : Int) ≠ 0)]
  rw [pyTake_of_le _ kn hfit, Int.toNat_natCast]

theorem packPrim_u32 (e : Endian) (L : Nat) :
    packPrim e (.intK 4 false) (.vInt (L : Int)) = packU32 e L := by
  by_cases h : L < 2 ^ 32
  · have h1 : (0 : Int) ≤ (L : Int) := by omega
    have h2 : (L : Int) < (2 ^ (8 * 4) : Int) := by
      have h32 : ((2 : Int) ^ (8 * 4)) = ((2 ^ 32 : Nat) : Int) := by norm_num
      omega
    have hmod : (L : Int) % (2 ^ (8 * 4) : Int) = (L : Int) :=
      Int.emod_eq_of_lt h1 h2
    rw [packPrim_fits e 4 false (L : Int) ⟨h1, h2⟩, packU32, if_pos h]
    rw [primBytes, hmod, Int.toNat_natCast]
  · have h2 : ¬ ((L : Int) < (2 ^ (8 * 4) : Int)) := by
      have h32 : ((2 : Int) ^ (8 * 4)) = ((2 ^ 32 : Nat) : Int) := by norm_num
      omega
    have hcond : ¬ ((0 : Int) ≤ (L : Int) ∧ (L : Int) < (2 ^ (8 * 4) : Int)) :=
      fun hc => h2 hc.2
    rw [packU32, if_neg h]
    simp [packPrim, asPackInt, hcond]
    omega

theorem serialize_field_string_var (fuel : Nat) (e : Endian)
    (f : FieldDefinition) (str : String) (ctx : Value)
    (hty : f.type = "string") (henc : f.encoding = "utf-8")
    (hsz : f.size = none)
    (hlen : (utf8Encode str).length < 2 ^ 32) :
    serialize_field (fuel + 1) e f (.vStr str) ctx =
      .ok (primBytes e 4 ((utf8Encode str).length : Int) ++ utf8Encode str) := by
  obtain ⟨nm, ty, sz, enc, lf, cf, cond, fn, fsc, fss, fse, fp⟩ := f
  simp only [FieldDefinition.type] at hty
  simp only [FieldDefinition.encoding] at henc
  simp only [FieldDefinition.size] at hsz
  subst hty; subst henc; subst hsz
  simp only [serialize_field, show typeMap "string" = none from rfl]
  rw [if_neg (by decide : ¬ ("string" : String) = "int24"),
    if_pos (trivial : True)]
  simp only [pyEncode, if_pos (rfl : ("utf-8" : String) = "utf-8")]
  rw [if_pos (trivial : True)]
  show (match packU32 e (utf8Encode str).length with
    | PyRes.ok lenBytes => (PyRes.ok (lenBytes ++ utf8Encode str) : PyRes (List Nat))
    | PyRes.exn m => PyRes.exn m) =
    .ok (primBytes e 4 ((utf8Encode str).length : Int) ++ utf8Encode str)
  rw [show packU32 e (utf8Encode str).length =
      .ok (orderBytes e (natLE 4 (utf8Encode str).length)) from by
    rw [packU32, if_pos hlen]]
  rw [show primBytes e 4 ((utf8Encode str).length : Int) =
      orderBytes e (natLE 4 (utf8Encode str).length) from by
    have h1 : (0 : Int) ≤ ((utf8Encode str).length : Int) := by omega
    have h2 : ((utf8Encode str).length : Int) < (2 ^ (8 * 4) : Int) := by
      have h32 : ((2 : Int) ^ (8 * 4)) = ((2 ^ 32 : Nat) : Int) := by norm_num
      omega
    rw [primBytes, Int.emod_eq_of_lt h1 h2, Int.toNat_natCast]]

theorem serialize_array_elems_cons (fuel : Nat) (e : Endian)
    (ef : FieldDefinition) (vals : List Value) (ctx : Value) (idx count : Nat) :
    serialize_array_elems (fuel + 1) e ef vals ctx idx (count + 1) =
      match serialize_field fuel e ef
          (if idx < vals.length then vals.getD idx (.vInt 0) else .vInt 0) ctx with
      | .exn m => .exn m
      | .ok bs =>
        match serialize_array_elems fuel e ef vals ctx (idx + 1) count with
        | .exn m => .exn m
        | .ok bs2 => .ok (bs ++ bs2) := rfl

theorem serialize_array_elems_ok (e : Endian) (ef : FieldDefinition)
    (sgn : Bool) (w : Nat) (ctx : Value) (full : List Int)
    (hety : typeMap ef.type = some (.intK w sgn)) :
    ∀ (ns : List Int) (idx fuel : Nat),
      full.drop idx = ns →
      idx + ns.length = full.length →
      (∀ x ∈ ns, intFits w sgn x) →
      ns.length + 1 ≤ fuel →
      serialize_array_elems fuel e ef (full.map .vInt) ctx idx ns.length =
        .ok (ns.flatMap (fun n => primBytes e w n)) := by
  intro ns
  induction ns with
  | nil =>
    intro idx fuel hdrop hlen hfit hfuel
    obtain ⟨F, rfl⟩ : ∃ F, fuel = F + 1 := ⟨fuel - 1, by omega⟩
    simp [serialize_array_elems]
  | cons x rest ih =>
    intro idx fuel hdrop hlen hfit hfuel
    obtain ⟨F, rfl⟩ : ∃ F, fuel = F + 1 := ⟨fuel - 1, by
      simp only [List.length_cons] at hfuel; omega⟩
    obtain ⟨F2, rfl⟩ : ∃ F2, F = F2 + 1 := ⟨F - 1, by
      simp only [List.length_cons] at hfuel; omega⟩
    simp only [List.length_cons]
    rw [serialize_array_elems_cons]
    have hidx : idx < full.length := by
      simp only [List.length_cons] at hlen; omega
    have hidx2 : idx < (full.map Value.vInt).length := by
      simpa using hidx
    have hcons := List.drop_eq_getElem_cons hidx
    rw [hdrop] at hcons
    have hx : full[idx] = x := by
      have := hcons
      injection this with h1 h2
      exact h1.symm
    have hrest : full.drop (idx + 1) = rest := by
      injection hcons with h1 h2
      exact h2.symm
    rw [if_pos (by simpa using hidx)]
    rw [List.getD_eq_getElem _ _ (by simpa using hidx)]
    rw [show (full.map Value.vInt)[idx] = Value.vInt full[idx] from
      List.getElem_map _]
    rw [hx]
    rw [serialize_field_prim F2 e ef (.vInt x) ctx (.intK w sgn) hety]
    rw [packPrim_fits e w sgn x (hfit x (List.mem_cons_self _ _))]
    rw [ih (idx + 1) (F2 + 1) hrest
      (by simp only [List.length_cons] at hlen; omega)
      (fun y hy => hfit y (List.mem_cons_of_mem _ hy))
      (by simp only [List.length_cons] at hfuel; omega)]
    simp [List.flatMap_cons]

theorem serialize_field_array (fuel : Nat) (e : Endian) (f ef : FieldDefinition)
    (sgn : Bool) (w : Nat) (ns : List Int) (ctx : Value)
    (hty : f.type = "array") (hlf : f.length_field = none)
    (hsz : f.size = some ((ns.length : Nat) : Int)) (hk : 0 < ns.length)
    (hfields : f.fields = [ef])
    (hety : typeMap ef.type = some (.intK w sgn))
    (hfit : ∀ x ∈ ns, intFits w sgn x)
    (hfuel : ns.length + 1 ≤ fuel) :
    serialize_field (fuel + 1) e f (.vList (ns.map .vInt)) ctx =
      .ok (ns.flatMap (fun n => primBytes e w n)) := by
  obtain ⟨nm, ty, sz, enc, lf, cf, cond, fn, fsc, fss, fse, fp⟩ := f
  simp only [FieldDefinition.type] at hty
  simp only [FieldDefinition.length_field] at hlf
  simp only [FieldDefinition.size] at hsz
  simp only [FieldDefinition.fields] at hfields
  subst hty; subst hlf; subst hsz; subst hfields
  simp only [serialize_field, show typeMap "array" = none from rfl]
  rw [if_neg (by decide : ¬ ("array" : String) = "int24"),
    if_neg (by decide : ¬ ("array" : String) = "string"),
    if_pos (trivial : True)]
  rw [if_pos (by omega : ((ns.length : Nat) : Int) ≠ 0)]
  rw [if_neg (by omega : ¬ ((ns.length : Nat) : Int) < 0)]
  show serialize_array_elems fuel e ef (List.map Value.vInt ns) ctx 0
    (((ns.length : Nat) : Int)).toNat = _
  rw [Int.toNat_natCast]
  exact serialize_array_elems_ok e ef sgn w ctx ns hety ns 0 fuel
    (by simp) (by simp) hfit hfuel

theorem goodName_facts (s : String) (h : goodName s = true) :
    '.' ∉ s.data ∧ '[' ∉ s.data ∧ ']' ∉ s.data ∧ s ≠ "" ∧ s ≠ "#" := by
  simp only [goodName, Bool.and_eq_true] at h
  obtain ⟨⟨hne, hall⟩, hhash⟩ := h
  rw [List.all_eq_true] at hall
  have hgc : ∀ c ∈ s.data, c ≠ '.' ∧ c ≠ '[' ∧ c ≠ ']' := by
    intro c hc
    have hc2 := hall c hc
    simp only [goodNameChar, Bool.and_eq_true, bne_iff_ne, ne_eq] at hc2
    exact ⟨hc2.1.1, hc2.1.2, hc2.2⟩
  refine ⟨?_, ?_, ?_, ?_, ?_⟩
  · intro hm; exact (hgc _ hm).1 rfl
  · intro hm; exact (hgc _ hm).2.1 rfl
  · intro hm; exact (hgc _ hm).2.2 rfl
  · apply str_ne_empty_of_data
    intro hdata
    rw [hdata] at hne
    simp at hne
  · simpa using hhash

theorem fieldOk_type_ok (f : FieldDefinition) (v : Value) (h : fieldOk f v) :
    ¬ ((typeMap f.type).isNone = true ∧
      ¬ f.type ∈ ["uint24", "int24", "string", "array", "struct", "union"]) := by
  rcases h.2.2.2.2 with ⟨w, sgn, n, hty, _⟩ | ⟨hty, _⟩ | ⟨hty, _⟩
  · intro hc
    rw [hty] at hc
    simp at hc
  · intro hc
    rw [hty] at hc
    simp at hc
  · intro hc
    rw [hty] at hc
    simp at hc

theorem fWeight_pos (f : FieldDefinition) : 0 < fWeight f := by
  obtain ⟨nm, ty, sz, enc, lf, cf, cond, fn, fsc, fss, fse, fp⟩ := f
  simp [fWeight]

theorem flatMap_primBytes_length (e : Endian) (w : Nat) (ns : List Int) :
    (ns.flatMap (fun n => primBytes e w n)).length = ns.length * w := by
  induction ns with
  | nil => simp
  | cons x rest ih =>
    simp only [List.flatMap_cons, List.length_append, primBytes_length,
      List.length_cons, ih]
    ring

/-- Round trip of one field of the restricted class: the serializer
produces bytes from which the deserializer writes back exactly the
original value under the field name. -/
theorem field_roundtrip (e : Endian) (f : FieldDefinition) (v : Value)
    (m : Value) (hok : fieldOk f v) :
    ∃ bs : List Nat,
      serialize_field (fWeight f + vWeight v + 1) e f v m = .ok bs ∧
      ∀ (fuel : Nat), bs.length + 2 ≤ fuel →
        ∀ (cm : List (String × Value)), lookupKey cm f.name = none →
        ∀ (pre post : List Nat),
          deserialize_field fuel e f "" ⟨pre ++ (bs ++ post), pre.length⟩
              (.vDict cm) =
            (.ok (), ⟨pre ++ (bs ++ post), pre.length + bs.length⟩,
              .vDict (setKey cm f.name v)) := by
  obtain ⟨hgood, hcond, hfn, hlf, hcase⟩ := hok
  obtain ⟨hdot, hlb, hrb, hne, hnh⟩ := goodName_facts f.name hgood
  rcases hcase with ⟨w, sgn, n, hty, hw, hv, hfit⟩ |
    ⟨hty, henc, str, hv, hszc⟩ |
    ⟨hty, ef, w, sgn, ns, hfds, hefn, hefty, hw, hv, hsz, hkn, hfit⟩
  · -- integer primitive
    subst hv
    refine ⟨primBytes e w n, ?_, ?_⟩
    · rw [serialize_field_prim (fWeight f + vWeight (.vInt n)) e f (.vInt n) m
        (.intK w sgn) hty]
      exact packPrim_fits e w sgn n hfit
    · intro fuel hfuel cm hcm pre post
      obtain ⟨F, rfl⟩ : ∃ F, fuel = F + 1 := ⟨fuel - 1, by omega⟩
      have h := deserialize_field_prim_ok e f (.intK w sgn) (.vInt n)
        (primBytes e w n) hty hnh hdot hrb hne (primBytes_length e w n)
        (unpackPrim_primBytes e w sgn n hw hfit) F cm pre post
      rw [h]
      rw [show ((.intK w sgn : PrimKind)).width = w from rfl, primBytes_length]
  · rcases hszc with ⟨hsz, hlen⟩ | ⟨kn, hsz, hk, hfit, hnt⟩
    · -- variable-size string
      subst hv
      refine ⟨primBytes e 4 ((utf8Encode str).length : Int) ++ utf8Encode str,
        ?_, ?_⟩
      · exact serialize_field_string_var (fWeight f + vWeight (.vStr str)) e f
          str m hty henc hsz hlen
      · intro fuel hfuel cm hcm pre post
        obtain ⟨F, rfl⟩ : ∃ F, fuel = F + 1 := ⟨fuel - 1, by omega⟩
        have h := deserialize_field_string_var_ok e f str hty henc hsz
          hdot hrb hne hlen F cm pre post
        rw [h]
        rw [show (primBytes e 4 ((utf8Encode str).length : Int) ++
            utf8Encode str).length = 4 + (utf8Encode str).length by
          simp [primBytes_length]]
    · -- fixed-size string
      subst hv
      refine ⟨ljustZero (utf8Encode str) kn, ?_, ?_⟩
      · exact serialize_field_string_fixed (fWeight f + vWeight (.vStr str)) e f
          kn str m hty henc hsz hk hfit
      · intro fuel hfuel cm hcm pre post
        obtain ⟨F, rfl⟩ : ∃ F, fuel = F + 1 := ⟨fuel - 1, by omega⟩
        have h := deserialize_field_string_fixed_ok e f kn str hty henc hsz hk
          hdot hrb hne hfit hnt F cm pre post
        rw [h]
        rw [ljustZero_length _ kn hfit]
  · -- fixed-size array of integer primitives
    subst hv
    have hlenb := flatMap_primBytes_length e w ns
    refine ⟨ns.flatMap (fun n => primBytes e w n), ?_, ?_⟩
    · apply serialize_field_array (fWeight f + vWeight (.vList (ns.map .vInt)))
        e f ef sgn w ns m hty hlf hsz hkn hfds hefty hfit
      have hvw := vWeightL_ge (ns.map .vInt)
      have hfw := fWeight_pos f
      simp only [List.length_map] at hvw
      simp only [vWeight]
      omega
    · intro fuel hfuel cm hcm pre post
      obtain ⟨F, rfl⟩ : ∃ F, fuel = F + 1 := ⟨fuel - 1, by omega⟩
      have h := deserialize_field_array_ok e f ef sgn w ns hty hlf hsz hkn
        hfds hefty hefn hw hdot hlb hfit F
        (by rw [hlenb] at hfuel; nlinarith [hfuel, hw]) cm hcm pre post
      rw [h]
  

/-- One decoder step over the field list at the top level for a field
without a condition. -/
theorem deserialize_fields_cons_nocond (fuel : Nat) (e : Endian)
    (f : FieldDefinition) (rest : List FieldDefinition) (s : Stream)
    (cm : List (String × Value)) (hcond : f.condition = none) :
    deserialize_fields (fuel + 1) e (f :: rest) "" s (.vDict cm) =
      match deserialize_field fuel e f "" s (.vDict cm) with
      | (.ok _, s2, ctx2) => deserialize_fields fuel e rest "" s2 ctx2
      | (.exn m, s2, ctx2) => (.exn m, s2, ctx2) := by
  simp only [deserialize_fields, get_nested_value_empty, hcond]

/-- Strengthen a conformance relation with the lookups in the full
document, provided the names are mutually distinct. -/
theorem lookup_pairs_self :
    ∀ (defs : List FieldDefinition) (pairs : List (String × Value)),
      List.Forall₂ (fun f kv => kv.1 = f.name ∧ fieldOk f kv.2) defs pairs →
      (defs.map FieldDefinition.name).Nodup →
      ∀ (d pre : List (String × Value)), d = pre ++ pairs →
        (∀ p ∈ pre, ∀ f ∈ defs, p.1 ≠ f.name) →
        List.Forall₂ (fun f kv => kv.1 = f.name ∧ fieldOk f kv.2 ∧
          lookupKey d f.name = some kv.2) defs pairs := by
  intro defs pairs h
  induction h with
  | nil => intro _ d pre _ _; exact List.Forall₂.nil
  | cons hf htail ih =>
    rename_i a b l1 l2
    intro hnod d pre hd hpre
    have hnod2 := (List.nodup_cons.mp hnod).2
    have hnotin := (List.nodup_cons.mp hnod).1
    constructor
    · refine ⟨hf.1, hf.2, ?_⟩
      subst hd
      rw [lookupKey_append_of_none pre _ _
        (lookupKey_eq_none_of_forall pre _
          (fun p hp => hpre p hp a (List.mem_cons_self _ _)))]
      rw [lookupKey, if_pos hf.1]
    · apply ih hnod2 d (pre ++ [b])
      · rw [hd, List.append_assoc]
        rfl
      · intro p hp g hg
        rcases List.mem_append.mp hp with hp2 | hp2
        · exact hpre p hp2 g (List.mem_cons_of_mem _ hg)
        · rw [List.mem_singleton] at hp2
          subst hp2
          rw [hf.1]
          intro hbg
          exact hnotin (hbg ▸ List.mem_map_of_mem _ hg)

/-- Round trip of a whole flat schema against its conforming document,
stated for the phase-1 serializer and the field-list decoder, threading
the accumulated decode context. -/
theorem roundtrip_fields (e : Endian) (m : List (String × Value)) :
    ∀ (defs : List FieldDefinition) (pairs : List (String × Value)),
      List.Forall₂ (fun f kv => kv.1 = f.name ∧ fieldOk f kv.2 ∧
        lookupKey m f.name = some kv.2) defs pairs →
      (defs.map FieldDefinition.name).Nodup →
      ∀ (buf : List Nat) (st : HandlerState),
        ∃ (bs : List Nat) (st1 : HandlerState),
          serialize_phase1 e (.vDict m) defs buf st = (.ok (), buf ++ bs, st1) ∧
          st1.calculated_fields = st.calculated_fields ∧
          ∀ (fuel : Nat), defs.length + bs.length + 2 ≤ fuel →
            ∀ (cm : List (String × Value)),
              (∀ f ∈ defs, lookupKey cm f.name = none) →
              ∀ (pre post : List Nat),
                deserialize_fields fuel e defs "" ⟨pre ++ (bs ++ post), pre.length⟩
                    (.vDict cm) =
                  (.ok (), ⟨pre ++ (bs ++ post), pre.length + bs.length⟩,
                    .vDict (cm ++ pairs)) := by
  intro defs pairs hfa
  induction hfa with
  | nil =>
    intro _ buf st
    refine ⟨[], st, ?_, rfl, ?_⟩
    · rw [serialize_phase1_nil, List.append_nil]
    · intro fuel hfuel cm _ pre post
      obtain ⟨F, rfl⟩ : ∃ F, fuel = F + 1 := ⟨fuel - 1, by omega⟩
      simp [deserialize_fields]
  | cons hf htail ih =>
    rename_i f kv defs2 pairs2
    intro hnod buf st
    obtain ⟨hk1, hok, hlook⟩ := hf
    have hnod2 := (List.nodup_cons.mp hnod).2
    have hnotin := (List.nodup_cons.mp hnod).1
    obtain ⟨fbs, hser, hdec⟩ := field_roundtrip e f kv.2 (.vDict m) hok
    have hstep := serialize_phase1_cons_plain e m f defs2 buf st kv.2 fbs
      hok.2.1 hlook (fieldOk_type_ok f kv.2 hok)
      (by rw [hok.2.2.1]; rfl) hser
    obtain ⟨bs2, st1, hph1, hcalc, hdec2⟩ := ih hnod2 (buf ++ fbs)
      ⟨st.calculated_fields,
       assocSet st.field_offsets f.name buf.length,
       assocSet st.field_sizes f.name fbs.length⟩
    refine ⟨fbs ++ bs2, st1, ?_, ?_, ?_⟩
    · rw [hstep, hph1, List.append_assoc]
    · rw [hcalc]
    · intro fuel hfuel cm hcm pre post
      obtain ⟨F, rfl⟩ : ∃ F, fuel = F + 1 := ⟨fuel - 1, by omega⟩
      rw [deserialize_fields_cons_nocond F e f defs2 _ cm hok.2.1]
      rw [show pre ++ ((fbs ++ bs2) ++ post) =
          pre ++ (fbs ++ (bs2 ++ post)) by simp [List.append_assoc]]
      have hfb : fbs.length + 2 ≤ F := by
        simp only [List.length_cons, List.length_append] at hfuel
        omega
      simp only [hdec F hfb cm (hcm f (List.mem_cons_self _ _)) pre (bs2 ++ post)]
      rw [setKey_of_lookup_none cm f.name kv.2 (hcm f (List.mem_cons_self _ _))]
      rw [show pre ++ (fbs ++ (bs2 ++ post)) =
          (pre ++ fbs) ++ (bs2 ++ post) by simp [List.append_assoc]]
      rw [show pre.length + fbs.length = (pre ++ fbs).length by
        simp [List.length_append]]
      have hcm2 : ∀ g ∈ defs2, lookupKey (cm ++ [(f.name, kv.2)]) g.name = none := by
        intro g hg
        rw [lookupKey_append_of_none _ _ _ (hcm g (List.mem_cons_of_mem _ hg))]
        rw [lookupKey, if_neg, lookupKey]
        intro hfg
        exact hnotin (hfg ▸ List.mem_map_of_mem _ hg)
      have h2 := hdec2 F (by
        simp only [List.length_cons, List.length_append] at hfuel ⊢
        omega) (cm ++ [(f.name, kv.2)]) hcm2 (pre ++ fbs) post
      rw [h2]
      rw [show (cm ++ [(f.name, kv.2)]) ++ pairs2 = cm ++ ((f.name, kv.2) :: pairs2) by
        simp]
      rw [show (pre ++ fbs).length + bs2.length = pre.length + (fbs ++ bs2).length by
        simp [List.length_append]; omega]
      rw [show kv = (f.name, kv.2) from by
        obtain ⟨a, b⟩ := kv
        rw [show a = f.name from hk1]]

/-- C1: for a flat schema of the restricted class (integer primitives,
utf-8 strings with fitting non-NUL-terminated fixed encodings or variable
size, fixed-size arrays of integer primitives with exactly size elements;
no conditions, functions, unions, floats or open arrays) and a conforming
document with distinct field names in schema order,
deserialize_from_binary inverts serialize_to_binary. -/
theorem C1_roundtrip_amended (e : Endian) (defs : List FieldDefinition)
    (m : List (String × Value))
    (hnodup : (defs.map FieldDefinition.name).Nodup)
    (hconf : conformsDoc defs m) :
    ∃ bs : List Nat,
      (serialize_to_binary e defs (.vDict m) initState).1 = .ok bs ∧
      deserialize_from_binary e defs bs = .ok (.vDict m) := by
  have hfa := lookup_pairs_self defs m hconf hnodup m [] rfl
    (by intro p hp; simp at hp)
  obtain ⟨bs, st1, hph1, hcalc, hdec⟩ :=
    roundtrip_fields e m defs m hfa hnodup [] initState
  rw [List.nil_append] at hph1
  refine ⟨bs, ?_, ?_⟩
  · have h2 : serialize_phase2_loop e st1 bs (.vDict m) st1.calculated_fields bs =
        .ok bs := by
      rw [hcalc]
      rfl
    rw [serialize_to_binary_ok e defs (.vDict m) initState bs bs st1 hph1 h2]
  · have h := hdec (fWeightL defs + bs.length * 2 + 2)
      (by have := fWeightL_ge defs; omega) [] (fun f hf => rfl) [] []
    simp only [List.nil_append, List.append_nil, List.length_nil] at h
    simp only [deserialize_from_binary, h]

/-- Witness for the amended C1 at a concrete schema and document. -/
theorem C1_roundtrip_amended_witness :
    ∃ bs : List Nat,
      (serialize_to_binary .little c1wSchema (.vDict c1wDoc) initState).1 =
        .ok bs ∧
      deserialize_from_binary .little c1wSchema bs = .ok (.vDict c1wDoc) :=
  C1_roundtrip_amended .little c1wSchema c1wDoc (by decide)
    (List.Forall₂.cons
      ⟨rfl, by decide, rfl, rfl, rfl,
        Or.inl ⟨1, false, 7, rfl, by decide, rfl, ⟨by decide, by decide⟩⟩⟩
      (List.Forall₂.cons
        ⟨rfl, by decide, rfl, rfl, rfl,
          Or.inr (Or.inl ⟨rfl, rfl, "ab", rfl,
            Or.inr ⟨3, by decide, by decide, by decide, by decide⟩⟩)⟩
        (List.Forall₂.cons
          ⟨rfl, by decide, rfl, rfl, rfl,
            Or.inr (Or.inl ⟨rfl, rfl, "hey", rfl,
              Or.inl ⟨rfl, by decide⟩⟩)⟩
          (List.Forall₂.cons
            ⟨rfl, by decide, rfl, rfl, rfl,
              Or.inr (Or.inr ⟨rfl,
                ⟨.mk "#" "int16" none "utf-8" none [] none none
                    "all_previous" none none [],
                  2, true, [-2, 300], rfl, rfl, rfl, by decide, rfl,
                  by decide, by decide, by
                    intro x hx
                    rcases List.mem_cons.mp hx with h | h
                    · subst h; exact ⟨by decide, by decide⟩
                    · rcases List.mem_cons.mp h with h | h
                      · subst h; exact ⟨by decide, by decide⟩
                      · simp at h⟩⟩)⟩
            List.Forall₂.nil))))

theorem read_exact_at (pre mid post : List Nat) (n p : Nat)
    (hp : pre.length = p) (h : mid.length = n) :
    Stream.read ⟨pre ++ (mid ++ post), p⟩ n =
      (mid, ⟨pre ++ (mid ++ post), p + n⟩) := by
  subst hp
  exact read_exact pre mid post n h

theorem read_exact_at0 (mid post : List Nat) (n : Nat) (h : mid.length = n) :
    Stream.read ⟨mid ++ post, 0⟩ n = (mid, ⟨mid ++ post, n⟩) := by
  have h2 := read_exact [] mid post n h
  simpa using h2

/-- C10: string decoding is total given enough bytes.  A fixed-size string
field decodes any n bytes (strip trailing NULs, decode with
errors=replace) and fails exactly when fewer than n bytes remain; a
variable-size string field decodes any length-prefixed payload to the
errors=replace reading of its bytes. -/
theorem C10_string_decode_total :
    (∀ (fuel : Nat) (data : List Nat) (pos n : Nat), 0 < n →
      pos + n ≤ data.length →
      deserialize_field (fuel + 1) .little (c10strFieldN n) "" ⟨data, pos⟩
          (.vDict []) =
        (.ok (), ⟨data, pos + n⟩,
          .vDict [("s", .vStr ⟨utf8DecodeReplaceChars
            (rstripZeros ((data.drop pos).take n))⟩)])) ∧
    (∀ (fuel : Nat) (data : List Nat) (pos n : Nat), 0 < n →
      data.length < pos + n →
      (deserialize_field (fuel + 1) .little (c10strFieldN n) "" ⟨data, pos⟩
          (.vDict [])).1 =
        .exn ("Unexpected end of file reading " ++ "s")) ∧
    (∀ (fuel : Nat) (payload post : List Nat), payload.length < 2 ^ 32 →
      deserialize_field (fuel + 1) .little c10varField ""
          ⟨natLE 4 payload.length ++ (payload ++ post), 0⟩ (.vDict []) =
        (.ok (), ⟨natLE 4 payload.length ++ (payload ++ post),
            4 + payload.length⟩,
          .vDict [("s", .vStr ⟨utf8DecodeReplaceChars payload⟩)])) := by
  refine ⟨?_, ?_, ?_⟩
  · intro fuel data pos n hn hle
    simp only [c10strFieldN, deserialize_field,
      show typeMap "string" = none from rfl]
    rw [if_neg (by decide : ¬ ("string" : String) = "int24"),
      if_neg (by decide : ¬ ("string" : String) = "uint24"),
      if_pos (trivial : True)]
    rw [if_pos (by omega : ((n : Nat) : Int) ≠ 0)]
    rw [deserialize_fixed_string, Stream.readInt,
      if_neg (by omega : ¬ ((n : Nat) : Int) < 0), Int.toNat_natCast]
    have htk : ((data.drop pos).take n).length = n := by
      simp only [List.length_take, List.length_drop]
      omega
    simp only [Stream.read]
    rw [if_neg (by rw [htk]; omega)]
    simp only [show pyDecodeReplace "utf-8"
        (rstripZeros ((data.drop pos).take n)) =
      .ok ⟨utf8DecodeReplaceChars (rstripZeros ((data.drop pos).take n))⟩
      from by rw [pyDecodeReplace, if_pos rfl]]
    rw [string_empty_append]
    simp only [write_nested_plain [] "s"
      (Value.vStr ⟨utf8DecodeReplaceChars
        (rstripZeros ((data.drop pos).take n))⟩)
      (by decide) (by decide) (by decide)]
    rw [htk]
    rfl
  · intro fuel data pos n hn hlt
    simp only [c10strFieldN, deserialize_field,
      show typeMap "string" = none from rfl]
    rw [if_neg (by decide : ¬ ("string" : String) = "int24"),
      if_neg (by decide : ¬ ("string" : String) = "uint24"),
      if_pos (trivial : True)]
    rw [if_pos (by omega : ((n : Nat) : Int) ≠ 0)]
    rw [deserialize_fixed_string, Stream.readInt,
      if_neg (by omega : ¬ ((n : Nat) : Int) < 0), Int.toNat_natCast]
    have htk : ((data.drop pos).take n).length < n := by
      simp only [List.length_take, List.length_drop]
      omega
    simp only [Stream.read]
    rw [if_pos (by exact_mod_cast htk)]
  · intro fuel payload post hlen
    simp only [c10varField, deserialize_field,
      show typeMap "string" = none from rfl]
    rw [if_neg (by decide : ¬ ("string" : String) = "int24"),
      if_neg (by decide : ¬ ("string" : String) = "uint24"),
      if_pos (trivial : True)]
    rw [deserialize_var_string]
    simp only [read_exact_at0 (natLE 4 payload.length) (payload ++ post) 4
      (natLE_length 4 payload.length)]
    rw [if_neg (by rw [natLE_length]; omega)]
    rw [show orderBytes Endian.little (natLE 4 payload.length) =
      natLE 4 payload.length from rfl]
    rw [natFromLE_natLE]
    rw [show (8 : Nat) * 4 = 32 from by norm_num, Nat.mod_eq_of_lt hlen]
    simp only [read_exact_at (natLE 4 payload.length) payload post
      payload.length 4 (natLE_length 4 payload.length) rfl]
    rw [if_neg (by omega)]
    simp only [show pyDecodeReplace "utf-8" payload =
      .ok ⟨utf8DecodeReplaceChars payload⟩ from by
      rw [pyDecodeReplace, if_pos rfl]]
    rw [string_empty_append]
    simp only [write_nested_plain [] "s"
      (Value.vStr ⟨utf8DecodeReplaceChars payload⟩)
      (by decide) (by decide) (by decide)]
    rfl

/-- Witness for C10 on concrete bytes: an invalid lead byte decodes to the
replacement character, trailing NULs are stripped, and a truncated buffer
fails with the end-of-file error. -/
theorem C10_string_decode_total_witness :
    deserialize_field 1 .little (c10strFieldN 2) "" ⟨[255, 97, 122], 0⟩
        (.vDict []) =
      (.ok (), ⟨[255, 97, 122], 0 + 2⟩,
        .vDict [("s", .vStr ⟨utf8DecodeReplaceChars
          (rstripZeros (([255, 97, 122].drop 0).take 2))⟩)]) ∧
    (deserialize_field 1 .little (c10strFieldN 9) "" ⟨[255, 97, 122], 0⟩
        (.vDict [])).1 =
      .exn ("Unexpected end of file reading " ++ "s") :=
  ⟨C10_string_decode_total.1 0 [255, 97, 122] 0 2 (by decide) (by decide),
   C10_string_decode_total.2.1 0 [255, 97, 122] 0 9 (by decide) (by decide)⟩

end BinMaster
